import Mathlib

/-!
# Verification of the bech32/codex32 checksum playground

A shallow embedding of the repository's Rust sources (`base32.rs`,
`checksum32.rs`) and proofs about the embedded definitions.

Strings are modelled as `List Char`; 5-bit field elements (`u5` in the
source) are modelled as `Nat` values below 32; byte sequences as
`List Nat`.  Fallible Rust functions returning `Result<_, String>` are
modelled with `Except String _`; functions that can panic are modelled
with `Option _`, `none` standing for the panic.
-/

set_option maxHeartbeats 8000000
set_option maxRecDepth 8000

deriving instance DecidableEq for Except

namespace Base32

/-- `CHARSET` from `base32.rs`: character set in lexicographic order. -/
def CHARSET : String := "qpzry9x8gf2tvdw0s3jn54khce6mua7l"

/-- Look up the character for a `u5` value, as `CHARSET[idx]` does in
`fmt::Display for u5` (the index is always in bounds in the source). -/
def charsetChar (v : Nat) : Char := CHARSET.data.getD v 'q'

/-- `ops::Add for u5` from `base32.rs`: addition in GF(32) is xor. -/
def u5add (self other : Nat) : Nat := self ^^^ other

/-- `u5::mul_alpha` from `base32.rs`: multiply by x in
GF(2)[x] mod x^5 + x^3 + 1 (shift left; reduce by xoring 0x29 when
bit 5 is set). -/
def mul_alpha (a : Nat) : Nat :=
  let b := a <<< 1
  if b &&& 0x20 == 0x20 then b ^^^ 0x29 else b

/-- `ops::Mul for u5` from `base32.rs`: schoolbook multiplication,
selecting shifted copies of `other` by the bits of `self`. -/
def u5mul (self other : Nat) : Nat :=
  let res := 0
  let res := if self &&& 0x01 != 0 then u5add res other else res
  let other := mul_alpha other
  let res := if self &&& 0x02 != 0 then u5add res other else res
  let other := mul_alpha other
  let res := if self &&& 0x04 != 0 then u5add res other else res
  let other := mul_alpha other
  let res := if self &&& 0x08 != 0 then u5add res other else res
  let other := mul_alpha other
  let res := if self &&& 0x10 != 0 then u5add res other else res
  res

/-- `u5::from_char` from `base32.rs`. -/
def from_char (c : Char) : Except String Nat :=
  match c with
  | 'q' => .ok 0x00
  | 'p' => .ok 0x01
  | 'z' => .ok 0x02
  | 'r' => .ok 0x03
  | 'y' => .ok 0x04
  | '9' => .ok 0x05
  | 'x' => .ok 0x06
  | '8' => .ok 0x07
  | 'g' => .ok 0x08
  | 'f' => .ok 0x09
  | '2' => .ok 0x0a
  | 't' => .ok 0x0b
  | 'v' => .ok 0x0c
  | 'd' => .ok 0x0d
  | 'w' => .ok 0x0e
  | '0' => .ok 0x0f
  | 's' => .ok 0x10
  | '3' => .ok 0x11
  | 'j' => .ok 0x12
  | 'n' => .ok 0x13
  | '5' => .ok 0x14
  | '4' => .ok 0x15
  | 'k' => .ok 0x16
  | 'h' => .ok 0x17
  | 'c' => .ok 0x18
  | 'e' => .ok 0x19
  | '6' => .ok 0x1a
  | 'm' => .ok 0x1b
  | 'u' => .ok 0x1c
  | 'a' => .ok 0x1d
  | '7' => .ok 0x1e
  | 'l' => .ok 0x1f
  | x => .error ("invalid bech32 character " ++ x.toString)

/-- UTF-8 encoding of a character, used to model Rust's `str::bytes`
iteration over the HRP. -/
def utf8Bytes (c : Char) : List Nat :=
  let n := c.toNat
  if n < 0x80 then [n]
  else if n < 0x800 then
    [0xc0 ||| (n >>> 6), 0x80 ||| (n &&& 0x3f)]
  else if n < 0x10000 then
    [0xe0 ||| (n >>> 12), 0x80 ||| ((n >>> 6) &&& 0x3f), 0x80 ||| (n &&& 0x3f)]
  else
    [0xf0 ||| (n >>> 18), 0x80 ||| ((n >>> 12) &&& 0x3f),
     0x80 ||| ((n >>> 6) &&& 0x3f), 0x80 ||| (n &&& 0x3f)]

/-- UTF-8 bytes of a whole string (Rust `str::bytes`). -/
def strBytes (s : List Char) : List Nat := (s.map utf8Bytes).flatten

/-- `str::rsplit_once('1')`: split at the last occurrence of `'1'`,
returning the parts before and after it. -/
def rsplit1 : List Char → Option (List Char × List Char)
  | [] => none
  | c :: rest =>
    match rsplit1 rest with
    | some (a, b) => some (c :: a, b)
    | none => if c = '1' then some ([], rest) else none

/-- `str::FromStr for u5String`: parse every character with `from_char`,
propagating the first error. -/
def parseU5 : List Char → Except String (List Nat)
  | [] => .ok []
  | ch :: rest =>
    match from_char ch with
    | .error e => .error e
    | .ok v =>
      match parseU5 rest with
      | .error e => .error e
      | .ok vs => .ok (v :: vs)

/-- `u5String::from_hrpstring` from `base32.rs`: split out the HRP at the
last `'1'` (empty HRP when there is none), push the high 3 bits of each
HRP byte, a zero separator, the low 5 bits of each HRP byte, then the
parsed data part. -/
def from_hrpstring (s : List Char) : Except String (List Nat) :=
  let p := match rsplit1 s with
    | some q => q
    | none => (([] : List Char), s)
  let hbytes := strBytes p.1
  match parseU5 p.2 with
  | .error e => .error e
  | .ok data =>
    .ok ((hbytes.map (· >>> 5)) ++ [0] ++ (hbytes.map (· &&& 0x1f)) ++ data)

end Base32

namespace Checksum32

open Base32

/-- The `Checksum` struct from `checksum32.rs`. -/
structure Checksum where
  modulus : List Nat
  residue : List Nat
  deriving DecidableEq, Repr

/-- `Checksum::new` from `checksum32.rs`.  The source asserts that both
strings are ASCII, that the modulus ends in `'p'`, that the modulus is one
character longer than the residue, and then parses both; every assertion
failure or parse failure is a panic, modelled by `none`. -/
def Checksum.new (modulus_str residue_str : String) : Option Checksum :=
  if modulus_str.data.all (·.toNat < 128) ∧ residue_str.data.all (·.toNat < 128) ∧
      modulus_str.data.getLast? = some 'p' ∧
      modulus_str.length = residue_str.length + 1 then
    match parseU5 modulus_str.data, parseU5 residue_str.data with
    | .ok m, .ok r => some ⟨m, r⟩
    | _, _ => none
  else none

/-- `get_checksums` from `checksum32.rs`, as the lookup function of the
`HashMap` it builds.  The `none` branch doubles for a missing key and for
a panic inside `Checksum::new` (which never fires on these inputs). -/
def get_checksums (name : String) : Option Checksum :=
  if name = "bech32" then Checksum.new "ja45kap" "qqqqqp"
  else if name = "codex32" then Checksum.new "sscmleeeqg3mep" "secretshare32"
  else if name = "long-codex32" then Checksum.new "hyk9x4hx4ef6e20p" "secretshare32ex"
  else none

/-- The `shift` helper inside `Checksum::polymod`: multiply the current
remainder by x.  Captures `xn = result[0]`, shifts the register down one
position with a `0` pushed at the end, then xors in `modulus[k-1-i] * xn`
at position `i` (the stored modulus read backwards, skipping its final
implicit `1` coefficient). -/
def Checksum.shift (c : Checksum) (result : List Nat) : List Nat :=
  let xn := result.headD 0
  let shifted := result.drop 1 ++ [0]
  let modRev := (c.modulus.take (c.modulus.length - 1)).reverse
  List.zipWith (fun r m => u5add r (u5mul m xn)) shifted modRev

/-- The body of the main loop of `Checksum::polymod`: `shift`, then xor
the incoming character into the last register position. -/
def Checksum.polyStep (c : Checksum) (st : List Nat) (ch : Nat) : List Nat :=
  let s2 := c.shift st
  s2.set (c.residue.length - 1) (u5add (s2.getD (c.residue.length - 1) 0) ch)

/-- The initial register of `Checksum::polymod`: all zeros except a `1`
in the last position (the polynomial "1"). -/
def Checksum.initState (c : Checksum) : List Nat :=
  (List.replicate c.residue.length 0).set (c.residue.length - 1) 1

/-- `Checksum::polymod` from `checksum32.rs`: fold the shift-and-add step
over the input, then xor the stored target residue into the register. -/
def Checksum.polymod (c : Checksum) (input : List Nat) : List Nat :=
  List.zipWith u5add (input.foldl c.polyStep c.initState) c.residue

/-- `Checksum::checksum` from `checksum32.rs`: parse the string (panic,
i.e. `none`, on failure), append `residue.len()` zeros, run `polymod`,
and append the checksum characters to the original string. -/
def Checksum.checksum (c : Checksum) (s : List Char) : Option (List Char) :=
  match from_hrpstring s with
  | .error _ => none
  | .ok input =>
    let cs := c.polymod (input ++ List.replicate c.residue.length 0)
    some (s ++ cs.map charsetChar)

/-- `Checksum::validate_checksum` from `checksum32.rs`: parse the string
(panic, i.e. `none`, on failure), run `polymod`, and test
`is_all_zero`. -/
def Checksum.validate_checksum (c : Checksum) (s : List Char) : Option Bool :=
  match from_hrpstring s with
  | .error _ => none
  | .ok input => some ((c.polymod input).all (· == 0))

/-- The value `Checksum::new("ja45kap", "qqqqqp")` registered under the
name "bech32" (see `get_checksums_bech32` below). -/
def bech32C : Checksum := ⟨[18, 29, 21, 20, 22, 29, 1], [0, 0, 0, 0, 0, 1]⟩

/-- The value `Checksum::new("sscmleeeqg3mep", "secretshare32")` registered
under the name "codex32". -/
def codex32C : Checksum :=
  ⟨[16, 16, 24, 27, 31, 25, 25, 25, 0, 8, 17, 27, 25, 1],
   [16, 25, 24, 3, 25, 11, 16, 23, 29, 3, 25, 17, 10]⟩

/-- The value `Checksum::new("hyk9x4hx4ef6e20p", "secretshare32ex")`
registered under the name "long-codex32". -/
def longCodex32C : Checksum :=
  ⟨[23, 4, 22, 5, 6, 21, 23, 6, 21, 25, 9, 26, 25, 10, 15, 1],
   [16, 25, 24, 3, 25, 11, 16, 23, 29, 3, 25, 17, 10, 25, 6]⟩

theorem new_bech32 : Checksum.new "ja45kap" "qqqqqp" = some bech32C := by decide

theorem new_codex32 :
    Checksum.new "sscmleeeqg3mep" "secretshare32" = some codex32C := by decide

theorem new_long :
    Checksum.new "hyk9x4hx4ef6e20p" "secretshare32ex" = some longCodex32C := by decide

theorem get_checksums_bech32 : get_checksums "bech32" = some bech32C := new_bech32

theorem get_checksums_codex32 : get_checksums "codex32" = some codex32C := new_codex32

theorem get_checksums_long : get_checksums "long-codex32" = some longCodex32C :=
  new_long

theorem get_checksums_cases {name : String} {c : Checksum}
    (h : get_checksums name = some c) :
    c = bech32C ∨ c = codex32C ∨ c = longCodex32C := by
  unfold get_checksums at h
  split_ifs at h
  · exact Or.inl (Option.some.inj (new_bech32.symm.trans h)).symm
  · exact Or.inr (Or.inl (Option.some.inj (new_codex32.symm.trans h)).symm)
  · exact Or.inr (Or.inr (Option.some.inj (new_long.symm.trans h)).symm)

/-! ### Arithmetic facts about the GF(32) operations, by enumeration -/

theorem f32_mul_lt : ∀ a b : Fin 32, u5mul a.val b.val < 32 := by decide

theorem f32_mul_comm : ∀ a b : Fin 32, u5mul a.val b.val = u5mul b.val a.val := by
  decide

theorem f32_mul_assoc : ∀ a b c : Fin 32,
    u5mul a.val (u5mul b.val c.val) = u5mul (u5mul a.val b.val) c.val := by decide

theorem f32_mul_xor : ∀ a b c : Fin 32,
    u5mul a.val (b.val ^^^ c.val) = u5mul a.val b.val ^^^ u5mul a.val c.val := by
  decide

theorem f32_mul_one : ∀ a : Fin 32,
    u5mul a.val 1 = a.val ∧ u5mul 1 a.val = a.val := by decide

theorem f32_mul_ne_zero : ∀ a b : Fin 32,
    a.val ≠ 0 → b.val ≠ 0 → u5mul a.val b.val ≠ 0 := by decide

theorem f32_inv : ∀ a : Fin 32, a.val ≠ 0 → ∃ b : Fin 32, u5mul a.val b.val = 1 := by
  decide

theorem f32_roundtrip : ∀ v : Fin 32, from_char (charsetChar v.val) = .ok v.val := by
  decide

theorem f32_charset_ne_sep : ∀ v : Fin 32, charsetChar v.val ≠ '1' := by decide

theorem f32_charset_inj : ∀ v w : Fin 32,
    charsetChar v.val = charsetChar w.val → v = w := by decide

theorem mul_zero_right (a : Nat) : u5mul a 0 = 0 := by
  simp [u5mul, u5add, mul_alpha]

theorem xor_lt_32 {a b : Nat} (ha : a < 32) (hb : b < 32) : a ^^^ b < 32 :=
  Nat.xor_lt_two_pow (n := 5) ha hb

theorem mul_lt_32 {a b : Nat} (ha : a < 32) (hb : b < 32) : u5mul a b < 32 :=
  f32_mul_lt ⟨a, ha⟩ ⟨b, hb⟩

theorem mul_comm_32 {a b : Nat} (ha : a < 32) (hb : b < 32) :
    u5mul a b = u5mul b a :=
  f32_mul_comm ⟨a, ha⟩ ⟨b, hb⟩

theorem mul_xor_32 {a b c : Nat} (ha : a < 32) (hb : b < 32) (hc : c < 32) :
    u5mul a (b ^^^ c) = u5mul a b ^^^ u5mul a c :=
  f32_mul_xor ⟨a, ha⟩ ⟨b, hb⟩ ⟨c, hc⟩

theorem mul_ne_zero_32 {a b : Nat} (ha : a < 32) (hb : b < 32)
    (ha0 : a ≠ 0) (hb0 : b ≠ 0) : u5mul a b ≠ 0 :=
  f32_mul_ne_zero ⟨a, ha⟩ ⟨b, hb⟩ ha0 hb0

theorem xor_left_comm (a b c : Nat) : a ^^^ (b ^^^ c) = b ^^^ (a ^^^ c) := by
  rw [← Nat.xor_assoc, Nat.xor_comm a b, Nat.xor_assoc]

theorem xor_shuffle (A B M N X Y : Nat) :
    A ^^^ (B ^^^ (M ^^^ (N ^^^ (X ^^^ Y)))) =
      A ^^^ (M ^^^ (X ^^^ (B ^^^ (N ^^^ Y)))) := by
  rw [xor_left_comm B M, xor_left_comm N X, xor_left_comm B X]

/-! ### Well-formedness of the registered checksums -/

/-- The structural facts about a `Checksum` that all registered checksums
satisfy: nonempty residue, modulus one longer than the residue, all
entries in GF(32) range, and a nonzero constant coefficient. -/
def Good (c : Checksum) : Prop :=
  0 < c.residue.length ∧
  c.modulus.length = c.residue.length + 1 ∧
  (∀ x ∈ c.modulus, x < 32) ∧
  (∀ x ∈ c.residue, x < 32) ∧
  c.modulus.headD 0 ≠ 0

theorem good_bech32 : Good bech32C := by
  refine ⟨by decide, by decide, ?_, ?_, by decide⟩ <;> decide

theorem good_codex32 : Good codex32C := by
  refine ⟨by decide, by decide, ?_, ?_, by decide⟩ <;> decide

theorem good_long : Good longCodex32C := by
  refine ⟨by decide, by decide, ?_, ?_, by decide⟩ <;> decide

theorem good_of_get {name : String} {c : Checksum}
    (h : get_checksums name = some c) : Good c := by
  rcases get_checksums_cases h with rfl | rfl | rfl
  · exact good_bech32
  · exact good_codex32
  · exact good_long

/-! ### Generic list helpers -/

/-- All elements of a list are valid GF(32) values. -/
def B32 (l : List Nat) : Prop := ∀ x ∈ l, x < 32

theorem getD_lt_of_B32 {l : List Nat} (h : B32 l) (i : Nat) : l.getD i 0 < 32 := by
  rcases Nat.lt_or_ge i l.length with hi | hi
  · rw [List.getD_eq_getElem _ _ hi]
    exact h _ (l.getElem_mem hi)
  · rw [List.getD_eq_default _ _ hi]
    decide

theorem B32_of_getD {l : List Nat} (h : ∀ i, i < l.length → l.getD i 0 < 32) :
    B32 l := by
  intro x hx
  obtain ⟨i, hi, rfl⟩ := List.mem_iff_getElem.mp hx
  rw [← List.getD_eq_getElem l 0 hi]
  exact h i hi

theorem eq_of_length_getD {a b : List Nat} (hl : a.length = b.length)
    (h : ∀ i, i < a.length → a.getD i 0 = b.getD i 0) : a = b := by
  refine List.ext_getElem hl fun i hi hi2 => ?_
  have := h i hi
  rwa [List.getD_eq_getElem _ _ hi, List.getD_eq_getElem _ _ hi2] at this

theorem headD_eq_getD (l : List Nat) : l.headD 0 = l.getD 0 0 := by
  cases l <;> rfl

theorem getD_append (a b : List Nat) (i : Nat) :
    (a ++ b).getD i 0 = if i < a.length then a.getD i 0 else b.getD (i - a.length) 0 := by
  simp only [List.getD_eq_getElem?_getD, List.getElem?_append]
  split_ifs with h <;> rfl

theorem getD_replicate (n x i : Nat) :
    (List.replicate n x).getD i 0 = if i < n then x else 0 := by
  simp only [List.getD_eq_getElem?_getD, List.getElem?_replicate]
  split_ifs <;> rfl

theorem zipXor_getD {a b : List Nat} (h : a.length = b.length) (i : Nat) :
    (List.zipWith u5add a b).getD i 0 = a.getD i 0 ^^^ b.getD i 0 := by
  simp only [List.getD_eq_getElem?_getD, List.getElem?_zipWith]
  rcases Nat.lt_or_ge i a.length with hi | hi
  · rw [List.getElem?_eq_getElem hi, List.getElem?_eq_getElem (h ▸ hi)]
    rfl
  · rw [List.getElem?_eq_none hi, List.getElem?_eq_none (h ▸ hi)]
    rfl

theorem zipXor_length {a b : List Nat} (h : a.length = b.length) :
    (List.zipWith u5add a b).length = a.length := by
  rw [List.length_zipWith, h, Nat.min_self]

theorem zipXor_zero_right {a : List Nat} {n : Nat} (h : a.length = n) :
    List.zipWith u5add a (List.replicate n 0) = a := by
  have hz : (List.zipWith u5add a (List.replicate n 0)).length = a.length := by
    simp [List.length_zipWith, h]
  refine eq_of_length_getD hz fun i hi => ?_
  rw [hz] at hi
  rw [zipXor_getD (by simp [h]) i, getD_replicate]
  have : i < n := h ▸ hi
  simp only [this, if_true]
  exact Nat.xor_zero _

theorem zipXor_zero_left {a : List Nat} {n : Nat} (h : a.length = n) :
    List.zipWith u5add (List.replicate n 0) a = a := by
  have hz : (List.zipWith u5add (List.replicate n 0) a).length = a.length := by
    simp [List.length_zipWith, h]
  refine eq_of_length_getD hz fun i hi => ?_
  rw [hz] at hi
  rw [zipXor_getD (by simp [h]) i, getD_replicate]
  have : i < n := h ▸ hi
  simp only [this, if_true]
  exact Nat.zero_xor _

theorem B32_replicate_zero (n : Nat) : B32 (List.replicate n 0) := by
  intro x hx
  rw [List.eq_of_mem_replicate hx]
  decide

/-! ### The polymod register: lengths, bounds, pointwise characterisation -/

theorem shift_length {c : Checksum} (hc : Good c) {st : List Nat}
    (hst : st.length = c.residue.length) :
    (c.shift st).length = c.residue.length := by
  obtain ⟨hk, hm, -, -, -⟩ := hc
  simp only [Checksum.shift, List.length_zipWith, List.length_append,
    List.length_drop, List.length_reverse, List.length_take, List.length_cons,
    List.length_nil, hst, hm]
  omega

theorem polyStep_length {c : Checksum} (hc : Good c) {st : List Nat}
    (hst : st.length = c.residue.length) (ch : Nat) :
    (c.polyStep st ch).length = c.residue.length := by
  simp only [Checksum.polyStep, List.length_set]
  exact shift_length hc hst

theorem zipWith_getD_lt {f : Nat → Nat → Nat} {a b : List Nat} {i : Nat}
    (ha : i < a.length) (hb : i < b.length) :
    (List.zipWith f a b).getD i 0 = f (a.getD i 0) (b.getD i 0) := by
  rw [List.getD_eq_getElem?_getD, List.getElem?_zipWith,
    List.getElem?_eq_getElem ha, List.getElem?_eq_getElem hb,
    List.getD_eq_getElem _ _ ha, List.getD_eq_getElem _ _ hb]
  rfl

theorem shift_getD {c : Checksum} (hc : Good c) {st : List Nat}
    (hst : st.length = c.residue.length) {i : Nat} (hi : i < c.residue.length) :
    (c.shift st).getD i 0 =
      st.getD (i + 1) 0 ^^^
        u5mul (c.modulus.getD (c.residue.length - 1 - i) 0) (st.getD 0 0) := by
  obtain ⟨hk, hm, -, -, -⟩ := hc
  have hsh : (st.drop 1 ++ [0]).length = c.residue.length := by
    simp only [List.length_append, List.length_drop, hst, List.length_cons,
      List.length_nil]
    omega
  have hmr : ((c.modulus.take (c.modulus.length - 1)).reverse).length =
      c.residue.length := by
    simp only [List.length_reverse, List.length_take, hm]
    omega
  have h1 : (st.drop 1 ++ [0]).getD i 0 = st.getD (i + 1) 0 := by
    rw [getD_append]
    simp only [List.length_drop, hst]
    split_ifs with hlt
    · rw [List.getD_eq_getElem?_getD, List.getElem?_drop,
        List.getD_eq_getElem?_getD, Nat.add_comm 1 i]
    · have hik : i = c.residue.length - 1 := by omega
      have : i - (c.residue.length - 1) = 0 := by omega
      rw [this]
      rw [List.getD_eq_default _ _ (by omega : st.length ≤ i + 1)]
      rfl
  have h2 : ((c.modulus.take (c.modulus.length - 1)).reverse).getD i 0 =
      c.modulus.getD (c.residue.length - 1 - i) 0 := by
    have htl : (c.modulus.take (c.modulus.length - 1)).length =
        c.residue.length := by
      simp only [List.length_take, hm]
      omega
    rw [List.getD_eq_getElem?_getD, List.getElem?_reverse (by omega : i < _),
      htl, List.getElem?_take, List.getD_eq_getElem?_getD]
    split_ifs with hcond
    · rfl
    · exfalso
      omega
  rw [Checksum.shift, ← headD_eq_getD]
  rw [zipWith_getD_lt (by omega : i < (st.drop 1 ++ [0]).length)
    (by omega : i < ((c.modulus.take (c.modulus.length - 1)).reverse).length),
    h1, h2]
  rfl

theorem polyStep_getD {c : Checksum} (hc : Good c) {st : List Nat}
    (hst : st.length = c.residue.length) {i : Nat} (hi : i < c.residue.length)
    (ch : Nat) :
    (c.polyStep st ch).getD i 0 =
      st.getD (i + 1) 0 ^^^
        u5mul (c.modulus.getD (c.residue.length - 1 - i) 0) (st.getD 0 0) ^^^
        (if i = c.residue.length - 1 then ch else 0) := by
  have hs2 := shift_length hc hst
  rw [Checksum.polyStep]
  by_cases hik : i = c.residue.length - 1
  · subst hik
    rw [List.getD_eq_getElem?_getD, List.getElem?_set_self (by omega),
      Option.getD_some, u5add, shift_getD hc hst hi]
    simp
  · rw [List.getD_eq_getElem?_getD, List.getElem?_set_ne (by omega),
      ← List.getD_eq_getElem?_getD, shift_getD hc hst hi]
    simp [hik]

theorem modulus_getD_lt {c : Checksum} (hc : Good c) (i : Nat) :
    c.modulus.getD i 0 < 32 :=
  getD_lt_of_B32 hc.2.2.1 i

theorem polyStep_B32 {c : Checksum} (hc : Good c) {st : List Nat}
    (hst : st.length = c.residue.length) (hb : B32 st) {ch : Nat}
    (hch : ch < 32) : B32 (c.polyStep st ch) := by
  refine B32_of_getD fun i hi => ?_
  rw [polyStep_length hc hst] at hi
  rw [polyStep_getD hc hst hi]
  refine xor_lt_32 (xor_lt_32 (getD_lt_of_B32 hb _)
    (mul_lt_32 (modulus_getD_lt hc _) (getD_lt_of_B32 hb _))) ?_
  split_ifs
  · exact hch
  · decide

theorem foldPM_length {c : Checksum} (hc : Good c) (input : List Nat) :
    ∀ {st : List Nat}, st.length = c.residue.length →
      (input.foldl c.polyStep st).length = c.residue.length := by
  induction input with
  | nil => intro st hst; exact hst
  | cons ch rest ih =>
    intro st hst
    rw [List.foldl_cons]
    exact ih (polyStep_length hc hst ch)

theorem foldPM_B32 {c : Checksum} (hc : Good c) {input : List Nat}
    (hin : B32 input) :
    ∀ {st : List Nat}, st.length = c.residue.length → B32 st →
      B32 (input.foldl c.polyStep st) := by
  induction input with
  | nil => intro st _ hb; exact hb
  | cons ch rest ih =>
    intro st hst hb
    rw [List.foldl_cons]
    exact ih (fun x hx => hin x (List.mem_cons_of_mem _ hx))
      (polyStep_length hc hst ch)
      (polyStep_B32 hc hst hb (hin ch (List.mem_cons_self _ _)))

theorem polyStep_linear {c : Checksum} (hc : Good c) {a b : List Nat}
    (ha : a.length = c.residue.length) (hb : b.length = c.residue.length)
    (hba : B32 a) (hbb : B32 b) (x y : Nat) :
    c.polyStep (List.zipWith u5add a b) (x ^^^ y) =
      List.zipWith u5add (c.polyStep a x) (c.polyStep b y) := by
  have hab : (List.zipWith u5add a b).length = c.residue.length := by
    rw [zipXor_length (ha.trans hb.symm), ha]
  have hlhs : (c.polyStep (List.zipWith u5add a b) (x ^^^ y)).length =
      c.residue.length := polyStep_length hc hab _
  have hrhs : (List.zipWith u5add (c.polyStep a x) (c.polyStep b y)).length =
      c.residue.length := by
    rw [zipXor_length ((polyStep_length hc ha x).trans
      (polyStep_length hc hb y).symm), polyStep_length hc ha]
  refine eq_of_length_getD (hlhs.trans hrhs.symm) fun i hi => ?_
  rw [hlhs] at hi
  rw [polyStep_getD hc hab hi,
    zipXor_getD ((polyStep_length hc ha x).trans (polyStep_length hc hb y).symm),
    polyStep_getD hc ha hi, polyStep_getD hc hb hi,
    zipXor_getD (ha.trans hb.symm), zipXor_getD (ha.trans hb.symm),
    mul_xor_32 (modulus_getD_lt hc _) (getD_lt_of_B32 hba 0) (getD_lt_of_B32 hbb 0)]
  have hite : (if i = c.residue.length - 1 then x ^^^ y else 0) =
      (if i = c.residue.length - 1 then x else 0) ^^^
      (if i = c.residue.length - 1 then y else 0) := by
    split_ifs <;> simp
  rw [hite]
  simp only [Nat.xor_assoc]
  exact xor_shuffle _ _ _ _ _ _

theorem foldPM_linear {c : Checksum} (hc : Good c) :
    ∀ {u v : List Nat}, u.length = v.length → B32 u → B32 v →
      ∀ {a b : List Nat}, a.length = c.residue.length →
        b.length = c.residue.length → B32 a → B32 b →
        (List.zipWith u5add u v).foldl c.polyStep (List.zipWith u5add a b) =
          List.zipWith u5add (u.foldl c.polyStep a) (v.foldl c.polyStep b) := by
  intro u
  induction u with
  | nil =>
    intro v hlen _ _ a b _ _ _ _
    have : v = [] := List.eq_nil_of_length_eq_zero (by simpa using hlen.symm)
    subst this
    rfl
  | cons x u' ih =>
    intro v hlen hu hv a b ha hb hba hbb
    cases v with
    | nil => simp at hlen
    | cons y v' =>
      simp only [List.zipWith_cons_cons, List.foldl_cons, u5add]
      rw [polyStep_linear hc ha hb hba hbb x y]
      exact ih (by simpa using hlen)
        (fun z hz => hu z (List.mem_cons_of_mem _ hz))
        (fun z hz => hv z (List.mem_cons_of_mem _ hz))
        (polyStep_length hc ha x) (polyStep_length hc hb y)
        (polyStep_B32 hc ha hba (hu x (List.mem_cons_self _ _)))
        (polyStep_B32 hc hb hbb (hv y (List.mem_cons_self _ _)))

/-! ### Feeding characters into a zeroed register -/

theorem polyStep_zeropad {c : Checksum} (hc : Good c) {p : List Nat}
    (hp : p.length < c.residue.length) (ch : Nat) :
    c.polyStep (List.replicate (c.residue.length - p.length) 0 ++ p) ch =
      List.replicate (c.residue.length - (p.length + 1)) 0 ++ (p ++ [ch]) := by
  have hk := hc.1
  have hst : (List.replicate (c.residue.length - p.length) 0 ++ p).length =
      c.residue.length := by
    simp only [List.length_append, List.length_replicate]
    omega
  have hrhs : (List.replicate (c.residue.length - (p.length + 1)) 0 ++
      (p ++ [ch])).length = c.residue.length := by
    simp only [List.length_append, List.length_replicate, List.length_cons,
      List.length_nil]
    omega
  refine eq_of_length_getD ((polyStep_length hc hst ch).trans hrhs.symm)
    fun i hi => ?_
  rw [polyStep_length hc hst ch] at hi
  have hz : (List.replicate (c.residue.length - p.length) 0 ++ p).getD 0 0 = 0 := by
    rw [getD_append, List.length_replicate, if_pos (by omega), getD_replicate,
      if_pos (by omega)]
  rw [polyStep_getD hc hst hi, hz, mul_zero_right, Nat.xor_zero]
  have hup : (List.replicate (c.residue.length - p.length) 0 ++ p).getD (i + 1) 0 =
      if i + 1 < c.residue.length - p.length then 0
      else p.getD (i + 1 - (c.residue.length - p.length)) 0 := by
    rw [getD_append, List.length_replicate]
    split_ifs with h
    · rw [getD_replicate, if_pos h]
    · rfl
  have hrhsv : (List.replicate (c.residue.length - (p.length + 1)) 0 ++
      (p ++ [ch])).getD i 0 =
      if i < c.residue.length - (p.length + 1) then 0
      else if i - (c.residue.length - (p.length + 1)) < p.length then
        p.getD (i - (c.residue.length - (p.length + 1))) 0
      else if i = c.residue.length - 1 then ch else 0 := by
    rw [getD_append, List.length_replicate]
    split_ifs with h h2 h3
    · rw [getD_replicate, if_pos h]
    · rw [getD_append, if_pos h2]
    · have hidx : i - (c.residue.length - (p.length + 1)) - p.length = 0 := by
        omega
      rw [getD_append, if_neg h2, hidx]
      rfl
    · exfalso
      omega
  rw [hup, hrhsv]
  by_cases h1 : i + 1 < c.residue.length - p.length
  · rw [if_pos h1, if_pos (by omega : i < c.residue.length - (p.length + 1)),
      if_neg (by omega : ¬ i = c.residue.length - 1), Nat.xor_zero]
  · rw [if_neg h1]
    by_cases h2 : i = c.residue.length - 1
    · rw [List.getD_eq_default _ _
        (by omega : p.length ≤ i + 1 - (c.residue.length - p.length)),
        if_pos h2, Nat.zero_xor,
        if_neg (by omega : ¬ i < c.residue.length - (p.length + 1)),
        if_neg (by omega : ¬ i - (c.residue.length - (p.length + 1)) < p.length)]
    · rw [if_neg h2, Nat.xor_zero,
        if_neg (by omega : ¬ i < c.residue.length - (p.length + 1)),
        if_pos (by omega : i - (c.residue.length - (p.length + 1)) < p.length)]
      have hidx : i - (c.residue.length - (p.length + 1)) =
          i + 1 - (c.residue.length - p.length) := by omega
      rw [hidx]

theorem foldPM_shiftin {c : Checksum} (hc : Good c) :
    ∀ (w p : List Nat), w.length + p.length ≤ c.residue.length →
      w.foldl c.polyStep (List.replicate (c.residue.length - p.length) 0 ++ p) =
        List.replicate (c.residue.length - p.length - w.length) 0 ++ (p ++ w) := by
  intro w
  induction w with
  | nil =>
    intro p _
    simp
  | cons ch w' ih =>
    intro p hlen
    simp only [List.length_cons] at hlen
    rw [List.foldl_cons,
      polyStep_zeropad hc (by omega : p.length < c.residue.length)]
    have hlen2 : w'.length + (p ++ [ch]).length ≤ c.residue.length := by
      simp only [List.length_append, List.length_cons, List.length_nil]
      omega
    have harith : c.residue.length - (p.length + 1) =
        c.residue.length - (p ++ [ch]).length := by
      simp only [List.length_append, List.length_cons, List.length_nil]
    rw [harith, ih (p ++ [ch]) hlen2]
    have harith2 : c.residue.length - (p ++ [ch]).length - w'.length =
        c.residue.length - p.length - (w'.length + 1) := by
      simp only [List.length_append, List.length_cons, List.length_nil]
      omega
    rw [harith2, List.append_assoc, List.singleton_append, List.length_cons]


theorem foldPM_from_zero {c : Checksum} (hc : Good c) {v : List Nat}
    (hv : v.length ≤ c.residue.length) :
    v.foldl c.polyStep (List.replicate c.residue.length 0) =
      List.replicate (c.residue.length - v.length) 0 ++ v := by
  have := foldPM_shiftin hc v [] (by simpa using hv)
  simpa using this

theorem polyStep_zero_state {c : Checksum} (hc : Good c) :
    c.polyStep (List.replicate c.residue.length 0) 0 =
      List.replicate c.residue.length 0 := by
  have hk := hc.1
  have := polyStep_zeropad hc (p := []) (by simpa using hk) 0
  simp only [List.length_nil, Nat.sub_zero, List.append_nil, List.nil_append] at this
  rw [this]
  have : c.residue.length - (0 + 1) + 1 = c.residue.length := by omega
  calc List.replicate (c.residue.length - (0 + 1)) 0 ++ [0]
      = List.replicate (c.residue.length - (0 + 1) + 1) 0 := by
        rw [← List.replicate_succ' (n := c.residue.length - (0 + 1))]
    _ = List.replicate c.residue.length 0 := by rw [this]

theorem foldPM_zero_zero {c : Checksum} (hc : Good c) (n : Nat) :
    (List.replicate n 0).foldl c.polyStep (List.replicate c.residue.length 0) =
      List.replicate c.residue.length 0 := by
  induction n with
  | zero => rfl
  | succ n ih =>
    rw [List.replicate_succ, List.foldl_cons, polyStep_zero_state hc, ih]

/-! ### A nonzero register stays nonzero under zero input -/

theorem exists_ne_of_ne_replicate {l : List Nat} {k : Nat} (hl : l.length = k)
    (h : l ≠ List.replicate k 0) : ∃ j, j < k ∧ l.getD j 0 ≠ 0 := by
  by_contra hno
  push_neg at hno
  exact h (eq_of_length_getD (by simp [hl]) fun i hi => by
    rw [getD_replicate, if_pos (hl ▸ hi)]
    exact hno i (hl ▸ hi))

theorem ne_replicate_of_getD {l : List Nat} {k j : Nat} (hj : j < k)
    (h : l.getD j 0 ≠ 0) : l ≠ List.replicate k 0 := by
  intro heq
  rw [heq, getD_replicate, if_pos hj] at h
  exact h rfl

theorem polyStep_zero_ne {c : Checksum} (hc : Good c) {st : List Nat}
    (hst : st.length = c.residue.length) (hb : B32 st)
    (hne : st ≠ List.replicate c.residue.length 0) :
    c.polyStep st 0 ≠ List.replicate c.residue.length 0 := by
  have hk := hc.1
  obtain ⟨j, hj, hjne⟩ := exists_ne_of_ne_replicate hst hne
  by_cases h0 : st.getD 0 0 = 0
  · have hj1 : 1 ≤ j := by
      rcases Nat.eq_zero_or_pos j with rfl | h
      · exact absurd h0 hjne
      · exact h
    refine ne_replicate_of_getD (j := j - 1) (by omega) ?_
    rw [polyStep_getD hc hst (by omega), h0, mul_zero_right, Nat.xor_zero,
      if_neg (by omega : ¬ j - 1 = c.residue.length - 1), Nat.xor_zero]
    have : j - 1 + 1 = j := by omega
    rw [this]
    exact hjne
  · refine ne_replicate_of_getD (j := c.residue.length - 1) (by omega) ?_
    rw [polyStep_getD hc hst (by omega)]
    rw [List.getD_eq_default _ _ (by omega : st.length ≤ c.residue.length - 1 + 1),
      if_pos rfl, Nat.xor_zero, Nat.zero_xor]
    have harith : c.residue.length - 1 - (c.residue.length - 1) = 0 := by omega
    rw [harith]
    have hmod0 : c.modulus.getD 0 0 ≠ 0 := by
      rw [← headD_eq_getD]
      exact hc.2.2.2.2
    exact mul_ne_zero_32 (modulus_getD_lt hc 0) (getD_lt_of_B32 hb 0) hmod0 h0

theorem foldPM_zeros_ne {c : Checksum} (hc : Good c) (n : Nat) :
    ∀ {st : List Nat}, st.length = c.residue.length → B32 st →
      st ≠ List.replicate c.residue.length 0 →
      (List.replicate n 0).foldl c.polyStep st ≠
        List.replicate c.residue.length 0 := by
  induction n with
  | zero => intro st _ _ hne; exact hne
  | succ n ih =>
    intro st hst hb hne
    rw [List.replicate_succ, List.foldl_cons]
    exact ih (polyStep_length hc hst 0) (polyStep_B32 hc hst hb (by decide))
      (polyStep_zero_ne hc hst hb hne)

/-! ### Parsing and HRP-expansion lemmas -/

theorem from_char_ok_imp {ch : Char} {v : Nat} (h : from_char ch = .ok v) :
    v < 32 ∧ charsetChar v = ch := by
  unfold from_char at h
  split at h <;>
    first
      | (injection h with h'
         subst h'
         exact ⟨by decide, by decide⟩)
      | cases h

theorem from_char_lt {ch : Char} {v : Nat} (h : from_char ch = .ok v) : v < 32 :=
  (from_char_ok_imp h).1

theorem from_char_inj {c1 c2 : Char} {v1 v2 : Nat} (h1 : from_char c1 = .ok v1)
    (h2 : from_char c2 = .ok v2) (hne : c1 ≠ c2) : v1 ≠ v2 := by
  intro he
  apply hne
  rw [← (from_char_ok_imp h1).2, ← (from_char_ok_imp h2).2, he]

theorem from_char_alpha :
    ∀ ch ∈ CHARSET.data, ∃ v : Fin 32, from_char ch = .ok v.val := by decide

theorem alpha_ne_sep : ∀ ch ∈ CHARSET.data, ch ≠ '1' := by decide

theorem char_toNat_lt (c : Char) : c.toNat < 1114112 := by
  rcases c.valid with h | ⟨h1, h2⟩
  · simp only [Char.toNat]
    omega
  · simp only [Char.toNat]
    omega

theorem utf8Bytes_lt (c : Char) : ∀ x ∈ utf8Bytes c, x < 256 := by
  have hc := char_toNat_lt c
  have hdiv : ∀ a b m : Nat, 0 < b → a < m * b → a / b < m := fun a b m hb hab =>
    (Nat.div_lt_iff_lt_mul hb).mpr hab
  have hor : ∀ x y : Nat, x < 256 → y < 256 → (x ||| y) < 256 := fun x y hx hy =>
    Nat.or_lt_two_pow (n := 8) hx hy
  have hand : ∀ x m : Nat, m < 256 → (x &&& m) < 256 := fun x m hm =>
    Nat.lt_of_le_of_lt (Nat.and_le_right) hm
  intro x hx
  simp only [utf8Bytes] at hx
  split_ifs at hx with h1 h2 h3 <;>
    simp only [List.mem_cons, List.not_mem_nil, or_false] at hx
  · rw [hx]
    omega
  · rcases hx with rfl | rfl
    · refine hor _ _ (by omega) ?_
      rw [Nat.shiftRight_eq_div_pow]
      exact Nat.lt_of_lt_of_le (hdiv _ _ 32 (by norm_num) (by norm_num; omega))
        (by omega)
    · exact hor _ _ (by omega) (hand _ _ (by omega))
  · rcases hx with rfl | rfl | rfl
    · refine hor _ _ (by omega) ?_
      rw [Nat.shiftRight_eq_div_pow]
      exact Nat.lt_of_lt_of_le (hdiv _ _ 16 (by norm_num) (by norm_num; omega))
        (by omega)
    · exact hor _ _ (by omega) (hand _ _ (by omega))
    · exact hor _ _ (by omega) (hand _ _ (by omega))
  · rcases hx with rfl | rfl | rfl | rfl
    · refine hor _ _ (by omega) ?_
      rw [Nat.shiftRight_eq_div_pow]
      exact Nat.lt_of_lt_of_le (hdiv _ _ 8 (by norm_num) (by norm_num; omega))
        (by omega)
    · exact hor _ _ (by omega) (hand _ _ (by omega))
    · exact hor _ _ (by omega) (hand _ _ (by omega))
    · exact hor _ _ (by omega) (hand _ _ (by omega))

theorem strBytes_lt (a : List Char) : ∀ x ∈ strBytes a, x < 256 := by
  intro x hx
  simp only [strBytes, List.mem_flatten] at hx
  obtain ⟨l, hl, hxl⟩ := hx
  obtain ⟨c, -, rfl⟩ := List.mem_map.mp hl
  exact utf8Bytes_lt c x hxl

theorem parseU5_B32 : ∀ {s : List Char} {v : List Nat},
    parseU5 s = .ok v → B32 v := by
  intro s
  induction s with
  | nil =>
    intro v h
    cases h
    intro x hx
    cases hx
  | cons ch rest ih =>
    intro v h
    rw [parseU5] at h
    cases hch : from_char ch with
    | error e => rw [hch] at h; cases h
    | ok w =>
      rw [hch] at h
      cases hrest : parseU5 rest with
      | error e => rw [hrest] at h; cases h
      | ok ws =>
        rw [hrest] at h
        cases h
        intro x hx
        rcases List.mem_cons.mp hx with rfl | hx
        · exact from_char_lt hch
        · exact ih hrest x hx

theorem B32_expand (a : List Char) {d : List Nat} (hd : B32 d) :
    B32 ((strBytes a).map (· >>> 5) ++ [0] ++
      (strBytes a).map (· &&& 0x1f) ++ d) := by
  intro x hx
  simp only [List.mem_append, List.mem_map, List.mem_cons,
    List.not_mem_nil, or_false] at hx
  rcases hx with ((⟨b, hb, rfl⟩ | rfl) | ⟨b, hb, rfl⟩) | hx
  · have hblt := strBytes_lt a b hb
    rw [Nat.shiftRight_eq_div_pow]
    have h8 : b / 2 ^ 5 < 8 :=
      (Nat.div_lt_iff_lt_mul (by norm_num)).mpr (by norm_num; omega)
    exact Nat.lt_of_lt_of_le h8 (by omega)
  · decide
  · exact Nat.lt_of_le_of_lt (Nat.and_le_right) (by omega)
  · exact hd x hx

theorem parseU5_cons_ok {ch : Char} {rest : List Char} {v : Nat} {vs : List Nat}
    (hch : from_char ch = .ok v) (hrest : parseU5 rest = .ok vs) :
    parseU5 (ch :: rest) = .ok (v :: vs) := by
  rw [parseU5, hch, hrest]

theorem parseU5_cons_inv {ch : Char} {rest : List Char} {vv : List Nat}
    (h : parseU5 (ch :: rest) = .ok vv) :
    ∃ v vs, from_char ch = .ok v ∧ parseU5 rest = .ok vs ∧ vv = v :: vs := by
  rw [parseU5] at h
  cases hch : from_char ch with
  | error e => rw [hch] at h; cases h
  | ok v =>
    rw [hch] at h
    cases hrest : parseU5 rest with
    | error e => rw [hrest] at h; cases h
    | ok vs =>
      rw [hrest] at h
      cases h
      exact ⟨v, vs, rfl, rfl, rfl⟩

theorem parseU5_append_ok : ∀ {a b : List Char} {va vb : List Nat},
    parseU5 a = .ok va → parseU5 b = .ok vb → parseU5 (a ++ b) = .ok (va ++ vb) := by
  intro a
  induction a with
  | nil =>
    intro b va vb ha hb
    cases ha
    simpa using hb
  | cons ch rest ih =>
    intro b va vb ha hb
    obtain ⟨v, vs, hch, hrest, rfl⟩ := parseU5_cons_inv ha
    rw [List.cons_append, parseU5, hch, ih hrest hb]
    rfl

theorem parseU5_append_inv : ∀ {a b : List Char} {vv : List Nat},
    parseU5 (a ++ b) = .ok vv →
      ∃ va vb, parseU5 a = .ok va ∧ parseU5 b = .ok vb ∧ vv = va ++ vb := by
  intro a
  induction a with
  | nil =>
    intro b vv h
    exact ⟨[], vv, rfl, by simpa using h, rfl⟩
  | cons ch rest ih =>
    intro b vv h
    rw [List.cons_append] at h
    obtain ⟨v, vs, hch, hrest, rfl⟩ := parseU5_cons_inv h
    obtain ⟨va, vb, hva, hvb, rfl⟩ := ih hrest
    exact ⟨v :: va, vb, parseU5_cons_ok hch hva, hvb, rfl⟩

theorem parseU5_length : ∀ {s : List Char} {v : List Nat},
    parseU5 s = .ok v → v.length = s.length := by
  intro s
  induction s with
  | nil => intro v h; cases h; rfl
  | cons ch rest ih =>
    intro v h
    obtain ⟨w, ws, -, hrest, rfl⟩ := parseU5_cons_inv h
    simp [ih hrest]

theorem parseU5_alpha : ∀ {s : List Char}, (∀ ch ∈ s, ch ∈ CHARSET.data) →
    ∃ v, parseU5 s = .ok v := by
  intro s
  induction s with
  | nil => intro _; exact ⟨[], rfl⟩
  | cons ch rest ih =>
    intro h
    obtain ⟨v, hv⟩ := from_char_alpha ch (h ch (List.mem_cons_self _ _))
    obtain ⟨vs, hvs⟩ := ih fun x hx => h x (List.mem_cons_of_mem _ hx)
    exact ⟨v.val :: vs, parseU5_cons_ok hv hvs⟩

theorem parseU5_map_charset : ∀ {cs : List Nat}, B32 cs →
    parseU5 (cs.map charsetChar) = .ok cs := by
  intro cs
  induction cs with
  | nil => intro _; rfl
  | cons v vs ih =>
    intro h
    have hv : v < 32 := h v (List.mem_cons_self _ _)
    rw [List.map_cons]
    exact parseU5_cons_ok (f32_roundtrip ⟨v, hv⟩)
      (ih fun x hx => h x (List.mem_cons_of_mem _ hx))

theorem charset_no_sep {cs : List Nat} (h : B32 cs) :
    '1' ∉ cs.map charsetChar := by
  intro hmem
  obtain ⟨v, hv, hch⟩ := List.mem_map.mp hmem
  exact f32_charset_ne_sep ⟨v, h v hv⟩ hch

/-! ### Splitting at the last separator -/

theorem rsplit1_none_of : ∀ {s : List Char}, '1' ∉ s → rsplit1 s = none := by
  intro s
  induction s with
  | nil => intro _; rfl
  | cons c rest ih =>
    intro h
    rw [rsplit1, ih fun hx => h (List.mem_cons_of_mem _ hx)]
    refine if_neg fun hc => h ?_
    rw [hc]
    exact List.mem_cons_self _ _

theorem rsplit1_none_inv : ∀ {s : List Char}, rsplit1 s = none → '1' ∉ s := by
  intro s
  induction s with
  | nil => intro _ h; cases h
  | cons c rest ih =>
    intro h hmem
    rw [rsplit1] at h
    cases hr : rsplit1 rest with
    | some q => rw [hr] at h; cases h
    | none =>
      rw [hr] at h
      split_ifs at h with hc
      rcases List.mem_cons.mp hmem with rfl | hmem
      · exact hc rfl
      · exact ih hr hmem

theorem rsplit1_of_split : ∀ (a b : List Char), '1' ∉ b →
    rsplit1 (a ++ '1' :: b) = some (a, b) := by
  intro a
  induction a with
  | nil =>
    intro b hb
    rw [List.nil_append, rsplit1, rsplit1_none_of hb, if_pos rfl]
  | cons c a' ih =>
    intro b hb
    rw [List.cons_append, rsplit1, ih b hb]

theorem rsplit1_some_inv : ∀ {s : List Char} {a b : List Char},
    rsplit1 s = some (a, b) → s = a ++ '1' :: b ∧ '1' ∉ b := by
  intro s
  induction s with
  | nil => intro a b h; cases h
  | cons c rest ih =>
    intro a b h
    rw [rsplit1] at h
    cases hr : rsplit1 rest with
    | some q =>
      obtain ⟨a', b'⟩ := q
      rw [hr] at h
      cases h
      obtain ⟨hs, hb⟩ := ih hr
      exact ⟨by rw [List.cons_append, ← hs], hb⟩
    | none =>
      rw [hr] at h
      split_ifs at h with hc
      cases h
      subst hc
      exact ⟨rfl, rsplit1_none_inv hr⟩

/-! ### Equations for from_hrpstring -/

theorem from_hrpstring_split (a b : List Char) (hb : '1' ∉ b) :
    from_hrpstring (a ++ '1' :: b) =
      match parseU5 b with
      | .error e => .error e
      | .ok d => .ok ((strBytes a).map (· >>> 5) ++ [0] ++
          (strBytes a).map (· &&& 0x1f) ++ d) := by
  rw [from_hrpstring, rsplit1_of_split a b hb]

theorem from_hrpstring_no1 (s : List Char) (h : '1' ∉ s) :
    from_hrpstring s =
      match parseU5 s with
      | .error e => .error e
      | .ok d => .ok ([0] ++ d) := by
  rw [from_hrpstring, rsplit1_none_of h]
  cases parseU5 s <;> rfl

theorem from_hrpstring_ok_inv {s : List Char} {base : List Nat}
    (h : from_hrpstring s = .ok base) :
    ∃ a b d, parseU5 b = .ok d ∧
      base = (strBytes a).map (· >>> 5) ++ [0] ++
        (strBytes a).map (· &&& 0x1f) ++ d ∧
      ((rsplit1 s = some (a, b) ∧ s = a ++ '1' :: b ∧ '1' ∉ b) ∨
        (rsplit1 s = none ∧ a = [] ∧ b = s)) := by
  rw [from_hrpstring] at h
  cases hr : rsplit1 s with
  | some q =>
    obtain ⟨a, b⟩ := q
    rw [hr] at h
    cases hp : parseU5 b with
    | error e => rw [hp] at h; cases h
    | ok d =>
      rw [hp] at h
      cases h
      obtain ⟨hs, hb⟩ := rsplit1_some_inv hr
      exact ⟨a, b, d, hp, rfl, Or.inl ⟨rfl, hs, hb⟩⟩
  | none =>
    rw [hr] at h
    cases hp : parseU5 s with
    | error e => rw [hp] at h; cases h
    | ok d =>
      rw [hp] at h
      cases h
      exact ⟨[], s, d, hp, by simp [strBytes], Or.inr ⟨rfl, rfl, rfl⟩⟩

theorem B32_from_hrp {s : List Char} {base : List Nat}
    (h : from_hrpstring s = .ok base) : B32 base := by
  obtain ⟨a, b, d, hp, rfl, -⟩ := from_hrpstring_ok_inv h
  exact B32_expand a (parseU5_B32 hp)

theorem from_hrpstring_append_ok {s : List Char} {base : List Nat}
    (h : from_hrpstring s = .ok base) {t : List Char} (ht : '1' ∉ t)
    {tv : List Nat} (htp : parseU5 t = .ok tv) :
    from_hrpstring (s ++ t) = .ok (base ++ tv) := by
  obtain ⟨a, b, d, hp, rfl, hcase⟩ := from_hrpstring_ok_inv h
  rcases hcase with ⟨-, hs, hb⟩ | ⟨hr, rfl, hbs⟩
  · subst hs
    have hbt : '1' ∉ b ++ t := by
      intro hmem
      rcases List.mem_append.mp hmem with hx | hx
      · exact hb hx
      · exact ht hx
    have : a ++ '1' :: b ++ t = a ++ '1' :: (b ++ t) := by simp
    rw [this, from_hrpstring_split a (b ++ t) hbt, parseU5_append_ok hp htp]
    simp
  · rw [hbs] at hp
    have hs1 : '1' ∉ s := rsplit1_none_inv hr
    have hst : '1' ∉ s ++ t := by
      intro hmem
      rcases List.mem_append.mp hmem with hx | hx
      · exact hs1 hx
      · exact ht hx
    rw [from_hrpstring_no1 _ hst, parseU5_append_ok hp htp]
    simp [strBytes]

/-! ### The checksum engine -/

theorem initState_length (c : Checksum) :
    c.initState.length = c.residue.length := by
  simp [Checksum.initState]

theorem initState_B32 {c : Checksum} (_hc : Good c) : B32 c.initState := by
  refine B32_of_getD fun i hi => ?_
  rw [initState_length] at hi
  rw [Checksum.initState, List.getD_eq_getElem?_getD]
  by_cases h : i = c.residue.length - 1
  · subst h
    rw [List.getElem?_set_self (by simp; omega)]
    decide
  · rw [List.getElem?_set_ne (by omega), List.getElem?_replicate,
      if_pos hi]
    decide

theorem checksum_eq {c : Checksum} {s : List Char} {base : List Nat}
    (h : from_hrpstring s = .ok base) :
    c.checksum s = some (s ++
      (c.polymod (base ++ List.replicate c.residue.length 0)).map charsetChar) := by
  rw [Checksum.checksum, h]

theorem validate_eq {c : Checksum} {s : List Char} {base : List Nat}
    (h : from_hrpstring s = .ok base) :
    c.validate_checksum s = some ((c.polymod base).all (· == 0)) := by
  rw [Checksum.validate_checksum, h]

theorem all_zero_replicate (n : Nat) :
    (List.replicate n 0).all (fun x => x == 0) = true := by
  rw [List.all_eq_true]
  intro x hx
  rw [List.eq_of_mem_replicate hx]
  rfl

theorem all_eq_false_of_ne {l : List Nat} {k : Nat} (hl : l.length = k)
    (h : l ≠ List.replicate k 0) : l.all (fun x => x == 0) = false := by
  by_contra hne
  apply h
  have hall := List.all_eq_true.mp (eq_true_of_ne_false hne)
  refine eq_of_length_getD (by simp [hl]) fun i hi => ?_
  rw [getD_replicate, if_pos (hl ▸ hi), List.getD_eq_getElem _ _ hi]
  have hx := hall _ (l.getElem_mem hi)
  simpa using hx

theorem polymod_length {c : Checksum} (hc : Good c) (input : List Nat) :
    (c.polymod input).length = c.residue.length := by
  rw [Checksum.polymod,
    zipXor_length (foldPM_length hc input (initState_length c)),
    foldPM_length hc input (initState_length c)]

theorem polymod_B32 {c : Checksum} (hc : Good c) {input : List Nat}
    (hin : B32 input) : B32 (c.polymod input) := by
  have hf := foldPM_length hc input (initState_length c)
  refine B32_of_getD fun i hi => ?_
  rw [polymod_length hc] at hi
  rw [Checksum.polymod, zipXor_getD hf]
  exact xor_lt_32
    (getD_lt_of_B32 (foldPM_B32 hc hin (initState_length c) (initState_B32 hc)) i)
    (getD_lt_of_B32 hc.2.2.2.1 i)

theorem checksum_valid_core {c : Checksum} (hc : Good c) {s : List Char}
    {base : List Nat} (hok : from_hrpstring s = .ok base) :
    ∃ cs, c.checksum s = some (s ++ cs.map charsetChar) ∧
      cs.length = c.residue.length ∧ B32 cs ∧
      from_hrpstring (s ++ cs.map charsetChar) = .ok (base ++ cs) ∧
      c.polymod (base ++ cs) = List.replicate c.residue.length 0 ∧
      c.validate_checksum (s ++ cs.map charsetChar) = some true := by
  have hB := B32_from_hrp hok
  have hzero : B32 (List.replicate c.residue.length (0 : Nat)) :=
    B32_replicate_zero _
  have hinB : B32 (base ++ List.replicate c.residue.length 0) := by
    intro x hx
    rcases List.mem_append.mp hx with hx | hx
    · exact hB x hx
    · exact hzero x hx
  have hSlen := foldPM_length hc base (initState_length c)
  have hSB32 := foldPM_B32 hc hB (initState_length c) (initState_B32 hc)
  have hcsdef : c.polymod (base ++ List.replicate c.residue.length 0) =
      List.zipWith u5add
        ((List.replicate c.residue.length 0).foldl c.polyStep
          (base.foldl c.polyStep c.initState)) c.residue := by
    rw [Checksum.polymod, List.foldl_append]
  have hFlen : ((List.replicate c.residue.length 0).foldl c.polyStep
      (base.foldl c.polyStep c.initState)).length = c.residue.length :=
    foldPM_length hc _ hSlen
  have hcslen : (c.polymod (base ++ List.replicate c.residue.length 0)).length =
      c.residue.length := polymod_length hc _
  have hcsB32 : B32 (c.polymod (base ++ List.replicate c.residue.length 0)) :=
    polymod_B32 hc hinB
  have hT : (c.polymod (base ++ List.replicate c.residue.length 0)).foldl
      c.polyStep (base.foldl c.polyStep c.initState) =
      List.zipWith u5add
        ((List.replicate c.residue.length 0).foldl c.polyStep
          (base.foldl c.polyStep c.initState))
        (c.polymod (base ++ List.replicate c.residue.length 0)) := by
    conv_lhs =>
      rw [← zipXor_zero_right hSlen, ← zipXor_zero_left hcslen]
    rw [foldPM_linear hc (by simp [hcslen]) hzero hcsB32 hSlen (by simp)
      hSB32 hzero]
    rw [foldPM_from_zero hc (Nat.le_of_eq hcslen)]
    rw [hcslen]
    simp
  have hl1 : (List.zipWith u5add
      ((List.replicate c.residue.length 0).foldl c.polyStep
        (base.foldl c.polyStep c.initState))
      (c.polymod (base ++ List.replicate c.residue.length 0))).length =
      c.residue.length := by
    rw [zipXor_length (hFlen.trans hcslen.symm)]
    exact hFlen
  have hmain : c.polymod (base ++ c.polymod
      (base ++ List.replicate c.residue.length 0)) =
      List.replicate c.residue.length 0 := by
    rw [Checksum.polymod, List.foldl_append, hT]
    have hl2 : (List.zipWith u5add (List.zipWith u5add
        ((List.replicate c.residue.length 0).foldl c.polyStep
          (base.foldl c.polyStep c.initState))
        (c.polymod (base ++ List.replicate c.residue.length 0)))
        c.residue).length = c.residue.length := by
      rw [zipXor_length hl1]
      exact hl1
    refine eq_of_length_getD (by simp [hl2]) fun i hi => ?_
    rw [hl2] at hi
    rw [zipXor_getD hl1, zipXor_getD (hFlen.trans hcslen.symm),
      getD_replicate, if_pos hi]
    conv_lhs => rw [hcsdef, zipXor_getD hFlen]
    rw [Nat.xor_cancel_left, Nat.xor_self]
  have hparse := from_hrpstring_append_ok hok (charset_no_sep hcsB32)
    (parseU5_map_charset hcsB32)
  refine ⟨_, checksum_eq hok, hcslen, hcsB32, hparse, hmain, ?_⟩
  rw [validate_eq hparse, hmain]
  rw [all_zero_replicate]


theorem zipXor_self (l : List Nat) :
    List.zipWith u5add l l = List.replicate l.length 0 := by
  induction l with
  | nil => rfl
  | cons x xs ih =>
    simp [u5add, List.replicate_succ, ih, Nat.xor_self]

theorem polymod_all_zero_iff {c : Checksum} (hc : Good c) (input : List Nat) :
    ((c.polymod input).all (fun x => x == 0) = true) ↔
      input.foldl c.polyStep c.initState = c.residue := by
  have hf := foldPM_length hc input (initState_length c)
  constructor
  · intro hall
    have hall' := List.all_eq_true.mp hall
    refine eq_of_length_getD hf fun i hi => ?_
    rw [hf] at hi
    have hlen : (c.polymod input).length = c.residue.length := polymod_length hc _
    have hilt : i < (c.polymod input).length := by
      rw [hlen]
      exact hi
    have hz : (c.polymod input).getD i 0 = 0 := by
      rw [List.getD_eq_getElem _ _ hilt]
      have := hall' _ ((c.polymod input).getElem_mem hilt)
      simpa using this
    rw [Checksum.polymod, zipXor_getD hf] at hz
    exact Nat.xor_eq_zero.mp hz
  · intro hfr
    rw [Checksum.polymod, hfr, zipXor_self]
    exact all_zero_replicate _

/-! ### Claim C1 -/

/-- C1: for every registered code name and every input string consisting
only of alphabet characters plus exactly one separator character `'1'`,
validating the checksummed string succeeds:
`validate_checksum(name, checksum(name, s))` returns true. -/
theorem C1_checksum_roundtrip (name : String) (c : Checksum)
    (hname : get_checksums name = some c) (s : List Char)
    (hs : ∀ ch ∈ s, ch ∈ CHARSET.data ∨ ch = '1')
    (h1 : s.count '1' = 1) :
    ∃ t, c.checksum s = some t ∧ c.validate_checksum t = some true := by
  have hc := good_of_get hname
  have hmem : '1' ∈ s := by
    by_contra hno
    rw [List.count_eq_zero.mpr hno] at h1
    cases h1
  cases hr : rsplit1 s with
  | none => exact absurd hmem (rsplit1_none_inv hr)
  | some q =>
    obtain ⟨a, b⟩ := q
    obtain ⟨hs_eq, hb⟩ := rsplit1_some_inv hr
    have hballpha : ∀ ch ∈ b, ch ∈ CHARSET.data := by
      intro ch hch
      have hchs : ch ∈ s := by
        rw [hs_eq]
        exact List.mem_append_right _ (List.mem_cons_of_mem _ hch)
      rcases hs ch hchs with h | h
      · exact h
      · exact absurd (h ▸ hch) hb
    obtain ⟨d, hd⟩ := parseU5_alpha hballpha
    have hok : from_hrpstring s = .ok ((strBytes a).map (· >>> 5) ++ [0] ++
        (strBytes a).map (· &&& 0x1f) ++ d) := by
      rw [hs_eq, from_hrpstring_split a b hb, hd]
    obtain ⟨cs, hcs, -, -, -, -, hval⟩ := checksum_valid_core hc hok
    exact ⟨_, hcs, hval⟩

theorem C1_witness :
    (∀ ch ∈ "ac1qqq".data, ch ∈ CHARSET.data ∨ ch = '1') ∧
    "ac1qqq".data.count '1' = 1 ∧
    ∃ t, bech32C.checksum "ac1qqq".data = some t ∧
      bech32C.validate_checksum t = some true :=
  ⟨by decide, by decide,
    C1_checksum_roundtrip "bech32" bech32C get_checksums_bech32 _
      (by decide) (by decide)⟩

/-! ### Claim C2 -/

/-- C2: `checksum` reproduces the published test vectors bit-exactly:
the bech32 vector and the codex32 vector from the repository's tests. -/
theorem C2_test_vectors :
    get_checksums "bech32" = some bech32C ∧
    bech32C.checksum "bc1qar0srrr7xfkvy5l643lydnw9re59gtzz".data =
      some "bc1qar0srrr7xfkvy5l643lydnw9re59gtzzwf5mdq".data ∧
    get_checksums "codex32" = some codex32C ∧
    codex32C.checksum "ms10testsxxxxxxxxxxxxxxxxxxxxxxxxxx".data =
      some "ms10testsxxxxxxxxxxxxxxxxxxxxxxxxxx4nzvca9cmczlw".data :=
  ⟨get_checksums_bech32, by decide, get_checksums_codex32, by decide⟩

/-! ### Claim C3 -/

/-- C3 counterexample: on the valid bech32 test vector,
`validate_checksum` returns true, yet the polymod register computed
without adding the target residue (the raw fold) is NOT all zeros — it
equals the target residue "qqqqqp".  So "computes its residue without
adding the target and returns true iff that residue is all zeros" is
false on the code. -/
theorem C3_counterexample :
    bech32C.validate_checksum
      "bc1qar0srrr7xfkvy5l643lydnw9re59gtzzwf5mdq".data = some true ∧
    (from_hrpstring "bc1qar0srrr7xfkvy5l643lydnw9re59gtzzwf5mdq".data).map
      (fun input =>
        (input.foldl bech32C.polyStep bech32C.initState).all
          (fun x => x == 0)) = .ok false :=
  ⟨by decide, by decide⟩

/-- C3 (amended): `validate_checksum(name, s)` parses `s` as HRP form and
computes its polymod residue WITH the stored target residue xored in
(`polymod` adds the target unconditionally, for validation as well); it
returns true iff that sum is all zeros — equivalently, iff the raw
register after the fold equals the stored target residue. -/
theorem C3_validate_residue (name : String) (c : Checksum)
    (hname : get_checksums name = some c) (s : List Char) (base : List Nat)
    (hok : from_hrpstring s = .ok base) :
    c.validate_checksum s = some ((c.polymod base).all (fun x => x == 0)) ∧
    (c.validate_checksum s = some true ↔
      base.foldl c.polyStep c.initState = c.residue) := by
  have hc := good_of_get hname
  refine ⟨validate_eq hok, ?_⟩
  rw [validate_eq hok]
  rw [← polymod_all_zero_iff hc base]
  constructor
  · intro h
    exact Option.some.inj h
  · intro h
    rw [h]

theorem C3_validate_residue_witness :
    get_checksums "bech32" = some bech32C ∧
    from_hrpstring "bc1qqq".data = .ok [3, 3, 0, 2, 3, 0, 0, 0] ∧
    (bech32C.validate_checksum "bc1qqq".data =
      some ((bech32C.polymod [3, 3, 0, 2, 3, 0, 0, 0]).all
        (fun x => x == 0)) ∧
    (bech32C.validate_checksum "bc1qqq".data = some true ↔
      [3, 3, 0, 2, 3, 0, 0, 0].foldl bech32C.polyStep bech32C.initState =
        bech32C.residue)) :=
  ⟨get_checksums_bech32, by decide,
    C3_validate_residue "bech32" bech32C get_checksums_bech32 _ _ (by decide)⟩

/-! ### Claim C5 -/

/-- C5: `from_hrpstring` splits at the last `'1'` (empty HRP and whole
input as DATA when there is no `'1'`) and returns the elements `b >>> 5`
for each HRP byte, a zero, the elements `b &&& 0x1f` for each HRP byte,
then the alphabet-parsed DATA; the empty input yields exactly `[0]`. -/
theorem C5_hrpstring_shape :
    (∀ (hrp data : List Char) (d : List Nat), '1' ∉ data →
      parseU5 data = .ok d →
      from_hrpstring (hrp ++ '1' :: data) =
        .ok ((strBytes hrp).map (· >>> 5) ++ [0] ++
          (strBytes hrp).map (· &&& 0x1f) ++ d)) ∧
    (∀ (s : List Char) (d : List Nat), '1' ∉ s → parseU5 s = .ok d →
      from_hrpstring s = .ok ([0] ++ d)) ∧
    from_hrpstring [] = .ok [0] := by
  refine ⟨fun hrp data d h1 hd => ?_, fun s d h1 hd => ?_, rfl⟩
  · rw [from_hrpstring_split _ _ h1, hd]
  · rw [from_hrpstring_no1 _ h1, hd]

theorem C5_hrpstring_shape_witness :
    ('1' ∉ "q".data ∧ parseU5 "q".data = .ok [0]) ∧
    from_hrpstring ("bc".data ++ '1' :: "q".data) =
      .ok ((strBytes "bc".data).map (· >>> 5) ++ [0] ++
        (strBytes "bc".data).map (· &&& 0x1f) ++ [0]) :=
  ⟨⟨by decide, by decide⟩,
    C5_hrpstring_shape.1 "bc".data "q".data [0] (by decide) (by decide)⟩

/-! ### Claim C10 -/

/-- C10: `from_hrpstring` performs no validation on the HRP portion: for
any HRP — including uppercase or non-ASCII characters — it expands each
UTF-8 byte `b` into `b >>> 5` and `b &&& 0x1f` without checking it, and
the result is an error exactly when the DATA portion after the last `'1'`
fails to parse. -/
theorem C10_hrp_unvalidated (hrp data : List Char) (h1 : '1' ∉ data) :
    from_hrpstring (hrp ++ '1' :: data) = (parseU5 data).map
      (fun d => (strBytes hrp).map (· >>> 5) ++ [0] ++
        (strBytes hrp).map (· &&& 0x1f) ++ d) := by
  rw [from_hrpstring_split _ _ h1]
  cases parseU5 data <;> rfl

theorem C10_hrp_unvalidated_witness :
    ('1' ∉ "q".data) ∧
    from_hrpstring (['é', 'B'] ++ '1' :: "q".data) = (parseU5 "q".data).map
      (fun d => (strBytes ['é', 'B']).map (· >>> 5) ++ [0] ++
        (strBytes ['é', 'B']).map (· &&& 0x1f) ++ d) :=
  ⟨by decide, C10_hrp_unvalidated ['é', 'B'] "q".data (by decide)⟩

/-! ### Claim C6 -/

/-- C6: the repository's own test `test_codex32` asserts that the
uppercase BIP-draft vector validates ("OK"), but `u5::from_char` accepts
lowercase only, so `validate_checksum` panics (modelled as `none`) on the
uppercase vector instead of returning true; the lowercase vectors do
validate. -/
theorem C6_case_vectors :
    get_checksums "codex32" = some codex32C ∧
    codex32C.validate_checksum
      "MS12NAMEA320ZYXWVUTSRQPNMLKJHGFEDCAXRPP870HKKQRM".data = none ∧
    from_hrpstring "MS12NAMEA320ZYXWVUTSRQPNMLKJHGFEDCAXRPP870HKKQRM".data =
      .error "invalid bech32 character N" ∧
    codex32C.validate_checksum
      "ms12namea320zyxwvutsrqpnmlkjhgfedcaxrpp870hkkqrm".data = some true ∧
    codex32C.validate_checksum
      "ms13cashsllhdmn9m42vcsamx24zrxgs3qqjzqud4m0d6nln".data = some true :=
  ⟨get_checksums_codex32, by decide, by decide, by decide, by decide⟩

/-! ### Claim C9 -/

/-- C9 counterexample: `checksum` and `validate_checksum` DO abort
(panic, modelled as `none`) when the input contains a bad base32
character, contradicting the claim that they never abort. -/
theorem C9_counterexample :
    bech32C.checksum ['b'] = none ∧
    bech32C.validate_checksum ['b'] = none :=
  ⟨by decide, by decide⟩

/-- C9 (amended): the base32 layer surfaces a bad character as a
recoverable error whose message names the offending token, and an unknown
code name is a missing `get_checksums` entry which the CLI dispatcher
reports without aborting; but `checksum` and `validate_checksum`
themselves treat the recoverable parse error as fatal and panic on an
input containing a bad base32 character. -/
theorem C9_error_surfaces :
    from_char 'b' = .error "invalid bech32 character b" ∧
    from_hrpstring ['b'] = .error "invalid bech32 character b" ∧
    get_checksums "bech99" = none ∧
    bech32C.checksum ['b'] = none ∧
    bech32C.validate_checksum ['b'] = none :=
  ⟨by decide, by decide, by decide, by decide, by decide⟩



/-! ### Claim C4: the spec's description of the polymod register -/

/-- The register initialisation as the spec words it: k elements, "all
zero except the last element set to 1". -/
def specRegisterInit (k : Nat) : List Nat := List.replicate (k - 1) 0 ++ [1]

/-- One register update as the spec words it: capture `xn = register[0]`;
left-shift the register by one position setting `register[k-1]` to 0;
xor into `register[i]` the product `xn * modulus[k-1-i]` for each `i` in
`0..k-1`; finally xor the input element into `register[k-1]`. -/
def specRegisterStep (c : Checksum) (reg : List Nat) (ch : Nat) : List Nat :=
  let k := c.residue.length
  let xn := reg.getD 0 0
  let shifted := (List.range k).map (fun i =>
    if i + 1 < k then reg.getD (i + 1) 0 else 0)
  let xored := (List.range k).map (fun i =>
    shifted.getD i 0 ^^^ u5mul xn (c.modulus.getD (k - 1 - i) 0))
  xored.set (k - 1) (xored.getD (k - 1) 0 ^^^ ch)

theorem range_map_getD (k : Nat) (f : Nat → Nat) {i : Nat} (hi : i < k) :
    ((List.range k).map f).getD i 0 = f i := by
  rw [List.getD_eq_getElem?_getD, List.getElem?_map, List.getElem?_range hi]
  rfl

theorem specRegisterStep_eq {c : Checksum} (hc : Good c) {st : List Nat}
    (hst : st.length = c.residue.length) (hb : B32 st) (ch : Nat) :
    c.polyStep st ch = specRegisterStep c st ch := by
  have hk := hc.1
  have hxored : ∀ i, i < c.residue.length →
      ((List.range c.residue.length).map (fun i =>
        ((List.range c.residue.length).map (fun j =>
          if j + 1 < c.residue.length then st.getD (j + 1) 0 else 0)).getD i 0 ^^^
        u5mul (st.getD 0 0) (c.modulus.getD (c.residue.length - 1 - i) 0))).getD
        i 0 =
      st.getD (i + 1) 0 ^^^
        u5mul (c.modulus.getD (c.residue.length - 1 - i) 0) (st.getD 0 0) := by
    intro i hi
    rw [range_map_getD _ _ hi, range_map_getD _ _ hi]
    rw [mul_comm_32 (getD_lt_of_B32 hb 0) (modulus_getD_lt hc _)]
    by_cases h : i + 1 < c.residue.length
    · rw [if_pos h]
    · rw [if_neg h, List.getD_eq_default _ _ (by omega : st.length ≤ i + 1)]
  have hlenspec : (specRegisterStep c st ch).length = c.residue.length := by
    simp [specRegisterStep]
  refine eq_of_length_getD ((polyStep_length hc hst ch).trans hlenspec.symm)
    fun i hi => ?_
  rw [polyStep_length hc hst ch] at hi
  rw [polyStep_getD hc hst hi]
  simp only [specRegisterStep]
  by_cases h : i = c.residue.length - 1
  · subst h
    conv_rhs => rw [List.getD_eq_getElem?_getD,
      List.getElem?_set_self (by simp; omega), Option.getD_some]
    rw [hxored _ (by omega), if_pos rfl]
  · conv_rhs => rw [List.getD_eq_getElem?_getD,
      List.getElem?_set_ne (by omega), ← List.getD_eq_getElem?_getD]
    rw [hxored _ hi, if_neg h, Nat.xor_zero]

theorem foldPM_spec_eq {c : Checksum} (hc : Good c) {input : List Nat}
    (hin : B32 input) :
    ∀ {st : List Nat}, st.length = c.residue.length → B32 st →
      input.foldl c.polyStep st = input.foldl (specRegisterStep c) st := by
  induction input with
  | nil => intro st _ _; rfl
  | cons ch rest ih =>
    intro st hst hb
    rw [List.foldl_cons, List.foldl_cons, ← specRegisterStep_eq hc hst hb ch]
    exact ih (fun x hx => hin x (List.mem_cons_of_mem _ hx))
      (polyStep_length hc hst ch)
      (polyStep_B32 hc hst hb (hin ch (List.mem_cons_self _ _)))

/-- C4: `polymod` maintains a register of `k = residue.length` field
elements, initialised to all zeros except the last element set to 1, and
for each input element captures `xn = register[0]`, shifts left by one
position setting `register[k-1]` to 0, xors in the products
`xn * modulus[k-1-i]` (the stored modulus read backwards, skipping its
implicit leading 1), and xors the input element into `register[k-1]`:
the code's fold coincides with a step function transcribed from the
spec's words, and `polymod` is that fold with the target residue added. -/
theorem C4_polymod_register (name : String) (c : Checksum)
    (hname : get_checksums name = some c) (input : List Nat)
    (hin : B32 input) :
    c.initState = specRegisterInit c.residue.length ∧
    c.polymod input = List.zipWith u5add
      (input.foldl (specRegisterStep c) (specRegisterInit c.residue.length))
      c.residue := by
  have hc := good_of_get hname
  have hk := hc.1
  have hinit : c.initState = specRegisterInit c.residue.length := by
    have hlen2 : (specRegisterInit c.residue.length).length =
        c.residue.length := by
      simp only [specRegisterInit, List.length_append, List.length_replicate,
        List.length_cons, List.length_nil]
      omega
    refine eq_of_length_getD ((initState_length c).trans hlen2.symm)
      fun i hi => ?_
    rw [initState_length] at hi
    rw [Checksum.initState, List.getD_eq_getElem?_getD, specRegisterInit,
      getD_append, List.length_replicate]
    by_cases h : i = c.residue.length - 1
    · subst h
      rw [List.getElem?_set_self (by simp; omega), Option.getD_some,
        if_neg (by omega)]
      have hz : c.residue.length - 1 - (c.residue.length - 1) = 0 := by omega
      rw [hz]
      rfl
    · rw [List.getElem?_set_ne (by omega), List.getElem?_replicate,
        if_pos hi, if_pos (by omega), getD_replicate, if_pos (by omega)]
      rfl
  refine ⟨hinit, ?_⟩
  rw [Checksum.polymod, foldPM_spec_eq hc hin (initState_length c)
    (initState_B32 hc), hinit]

theorem C4_polymod_register_witness :
    get_checksums "bech32" = some bech32C ∧ B32 [1, 2] ∧
    (bech32C.initState = specRegisterInit bech32C.residue.length ∧
      bech32C.polymod [1, 2] = List.zipWith u5add
        ([1, 2].foldl (specRegisterStep bech32C)
          (specRegisterInit bech32C.residue.length)) bech32C.residue) :=
  ⟨get_checksums_bech32, by unfold B32; decide,
    C4_polymod_register "bech32" bech32C get_checksums_bech32 [1, 2]
      (by unfold B32; decide)⟩

/-! ### Claim C8 -/

/-- C8: for all GF(32) elements (values 0..31): addition (xor) is
commutative, associative, and self-inverse; multiplication is
commutative, associative, distributes over addition, and has identity 1,
the value of the character 'p'; and every nonzero element has a
multiplicative inverse. -/
theorem C8_field_axioms :
    (∀ a b : Fin 32, u5add a.val b.val = u5add b.val a.val) ∧
    (∀ a b c : Fin 32,
      u5add (u5add a.val b.val) c.val = u5add a.val (u5add b.val c.val)) ∧
    (∀ a : Fin 32, u5add a.val a.val = 0) ∧
    (∀ a b : Fin 32, u5mul a.val b.val = u5mul b.val a.val) ∧
    (∀ a b c : Fin 32,
      u5mul a.val (u5mul b.val c.val) = u5mul (u5mul a.val b.val) c.val) ∧
    (∀ a b c : Fin 32,
      u5mul a.val (u5add b.val c.val) =
        u5add (u5mul a.val b.val) (u5mul a.val c.val)) ∧
    from_char 'p' = .ok 1 ∧
    (∀ a : Fin 32, u5mul 1 a.val = a.val ∧ u5mul a.val 1 = a.val) ∧
    (∀ a : Fin 32, a.val ≠ 0 → ∃ b : Fin 32, u5mul a.val b.val = 1) :=
  ⟨fun a b => Nat.xor_comm a.val b.val,
    fun a b c => Nat.xor_assoc a.val b.val c.val,
    fun a => Nat.xor_self a.val,
    f32_mul_comm, f32_mul_assoc, f32_mul_xor, rfl,
    fun a => ⟨(f32_mul_one a).2, (f32_mul_one a).1⟩,
    f32_inv⟩

theorem C8_witness :
    ((18 : Fin 32).val ≠ 0) ∧ ∃ b : Fin 32, u5mul (18 : Fin 32).val b.val = 1 :=
  ⟨by decide, C8_field_axioms.2.2.2.2.2.2.2.2 18 (by decide)⟩



/-! ### Claim C7: tamper detection -/

theorem polymod_tamper_ne {c : Checksum} (hc : Good c) (A B : List Nat)
    (vx va : Nat) (hA : B32 A) (hB : B32 B) (hvx : vx < 32) (hva : va < 32)
    (hne : vx ≠ va)
    (hzero : c.polymod (A ++ vx :: B) = List.replicate c.residue.length 0) :
    (c.polymod (A ++ va :: B)).all (fun x => x == 0) = false := by
  have hk := hc.1
  have he : vx ^^^ va ≠ 0 := fun h => hne (Nat.xor_eq_zero.mp h)
  have helt : vx ^^^ va < 32 := xor_lt_32 hvx hva
  have hinB : B32 (A ++ vx :: B) := by
    intro y hy
    rcases List.mem_append.mp hy with hy | hy
    · exact hA y hy
    · rcases List.mem_cons.mp hy with rfl | hy
      · exact hvx
      · exact hB y hy
  have hpatB : B32 (List.replicate A.length 0 ++
      (vx ^^^ va) :: List.replicate B.length 0) := by
    intro y hy
    rcases List.mem_append.mp hy with hy | hy
    · rw [List.eq_of_mem_replicate hy]; decide
    · rcases List.mem_cons.mp hy with rfl | hy
      · exact helt
      · rw [List.eq_of_mem_replicate hy]; decide
  have hinput : A ++ va :: B = List.zipWith u5add (A ++ vx :: B)
      (List.replicate A.length 0 ++
        (vx ^^^ va) :: List.replicate B.length 0) := by
    rw [List.zipWith_append _ _ _ _ _ (by simp), zipXor_zero_right rfl,
      List.zipWith_cons_cons, zipXor_zero_right rfl]
    have hx : u5add vx (vx ^^^ va) = va := by
      simp [u5add, Nat.xor_cancel_left]
    rw [hx]
  have hF : (A ++ vx :: B).foldl c.polyStep c.initState = c.residue :=
    (polymod_all_zero_iff hc _).mp (by rw [hzero]; exact all_zero_replicate _)
  have hD1 : c.polyStep (List.replicate c.residue.length 0) (vx ^^^ va) =
      List.replicate (c.residue.length - 1) 0 ++ [vx ^^^ va] := by
    have := polyStep_zeropad hc (p := []) (by simpa using hk) (vx ^^^ va)
    simpa using this
  have hD1len : (List.replicate (c.residue.length - 1) 0 ++
      [vx ^^^ va]).length = c.residue.length := by
    simp only [List.length_append, List.length_replicate, List.length_cons,
      List.length_nil]
    omega
  have hD1B : B32 (List.replicate (c.residue.length - 1) 0 ++ [vx ^^^ va]) := by
    intro y hy
    rcases List.mem_append.mp hy with hy | hy
    · rw [List.eq_of_mem_replicate hy]; decide
    · rcases List.mem_cons.mp hy with rfl | hy
      · exact helt
      · cases hy
  have hD1ne : List.replicate (c.residue.length - 1) 0 ++ [vx ^^^ va] ≠
      List.replicate c.residue.length 0 := by
    refine ne_replicate_of_getD (j := c.residue.length - 1) (by omega) ?_
    rw [getD_append, List.length_replicate, if_neg (by omega)]
    have hz : c.residue.length - 1 - (c.residue.length - 1) = 0 := by omega
    rw [hz]
    exact he
  have hDne : (List.replicate A.length 0 ++
      (vx ^^^ va) :: List.replicate B.length 0).foldl c.polyStep
      (List.replicate c.residue.length 0) ≠
      List.replicate c.residue.length 0 := by
    rw [List.foldl_append, foldPM_zero_zero hc, List.foldl_cons, hD1]
    exact foldPM_zeros_ne hc B.length hD1len hD1B hD1ne
  have hDlen : ((List.replicate A.length 0 ++
      (vx ^^^ va) :: List.replicate B.length 0).foldl c.polyStep
      (List.replicate c.residue.length 0)).length = c.residue.length :=
    foldPM_length hc _ (by simp)
  have hlin : (A ++ va :: B).foldl c.polyStep c.initState =
      List.zipWith u5add c.residue
        ((List.replicate A.length 0 ++
          (vx ^^^ va) :: List.replicate B.length 0).foldl c.polyStep
          (List.replicate c.residue.length 0)) := by
    conv_lhs => rw [hinput, ← zipXor_zero_right (initState_length c)]
    rw [foldPM_linear hc (by simp) hinB hpatB (initState_length c) (by simp)
      (initState_B32 hc) (B32_replicate_zero _), hF]
  have hres : c.polymod (A ++ va :: B) =
      (List.replicate A.length 0 ++
        (vx ^^^ va) :: List.replicate B.length 0).foldl c.polyStep
        (List.replicate c.residue.length 0) := by
    rw [Checksum.polymod, hlin]
    refine eq_of_length_getD ?_ fun i hi => ?_
    · rw [zipXor_length (by rw [zipXor_length hDlen.symm]),
        zipXor_length hDlen.symm, hDlen]
    · rw [zipXor_length (by rw [zipXor_length hDlen.symm]),
        zipXor_length hDlen.symm] at hi
      rw [zipXor_getD (by rw [zipXor_length hDlen.symm]),
        zipXor_getD hDlen.symm]
      rw [Nat.xor_comm (c.residue.getD i 0), Nat.xor_assoc, Nat.xor_self,
        Nat.xor_zero]
  rw [hres]
  exact all_eq_false_of_ne hDlen hDne


/-- C7 (amended): for every registered code, every string produced by
`checksum`, and every character position strictly after the last `'1'`
separator, replacing that character by any other alphabet character
yields a string on which `validate_checksum` returns false.  (The
original claim, quantifying over ALL positions including the HRP, is
refuted by `C7_counterexample` below: a substitution inside a long HRP
can go undetected.) -/
theorem C7_tamper_detected (name : String) (c : Checksum)
    (hname : get_checksums name = some c) (s t : List Char)
    (hcs : c.checksum s = some t)
    (p d1 d2 : List Char) (x a : Char)
    (ht : t = p ++ d1 ++ x :: d2)
    (hp : p = [] ∨ ∃ p0, p = p0 ++ ['1'])
    (hd1 : '1' ∉ d1) (hx : x ≠ '1') (hd2 : '1' ∉ d2)
    (ha : a ∈ CHARSET.data) (hax : a ≠ x) :
    c.validate_checksum (p ++ d1 ++ a :: d2) = some false := by
  have hc := good_of_get hname
  obtain ⟨base, hfh⟩ : ∃ base, from_hrpstring s = .ok base := by
    cases hfh : from_hrpstring s with
    | error e => rw [Checksum.checksum, hfh] at hcs; cases hcs
    | ok base => exact ⟨base, rfl⟩
  obtain ⟨cs, hcseq, hcslen, hcsB32, hparse, hzero, -⟩ :=
    checksum_valid_core hc hfh
  have hteq : t = s ++ cs.map charsetChar :=
    Option.some.inj (hcs.symm.trans hcseq)
  rw [← hteq] at hparse
  obtain ⟨va, hva⟩ := from_char_alpha a ha
  have hane1 : a ≠ '1' := alpha_ne_sep a ha
  rcases hp with rfl | ⟨p0, rfl⟩
  · -- no separator in t at all
    rw [List.nil_append] at ht ⊢
    have ht1 : '1' ∉ t := by
      rw [ht]
      intro hmem
      rcases List.mem_append.mp hmem with hmem | hmem
      · exact hd1 hmem
      · rcases List.mem_cons.mp hmem with heq | hmem
        · exact hx heq.symm
        · exact hd2 hmem
    rw [from_hrpstring_no1 t ht1] at hparse
    cases hpd : parseU5 t with
    | error e => rw [hpd] at hparse; cases hparse
    | ok dv =>
      rw [hpd] at hparse
      have heq : [0] ++ dv = base ++ cs := Except.ok.inj hparse
      rw [ht] at hpd
      obtain ⟨v1, w, hv1, hw, rfl⟩ := parseU5_append_inv hpd
      obtain ⟨vx, v2, hvx, hv2, rfl⟩ := parseU5_cons_inv hw
      have ht1' : '1' ∉ d1 ++ a :: d2 := by
        intro hmem
        rcases List.mem_append.mp hmem with hmem | hmem
        · exact hd1 hmem
        · rcases List.mem_cons.mp hmem with heq' | hmem
          · exact hane1 heq'.symm
          · exact hd2 hmem
      have hparse' : from_hrpstring (d1 ++ a :: d2) =
          .ok ([0] ++ (v1 ++ va.val :: v2)) := by
        rw [from_hrpstring_no1 _ ht1',
          parseU5_append_ok hv1 (parseU5_cons_ok hva hv2)]
      rw [validate_eq hparse']
      have hassoc : [0] ++ (v1 ++ va.val :: v2) =
          (0 :: v1) ++ va.val :: v2 := by simp
      have hassoc2 : [0] ++ (v1 ++ vx :: v2) = (0 :: v1) ++ vx :: v2 := by simp
      have hzero' : c.polymod ((0 :: v1) ++ vx :: v2) =
          List.replicate c.residue.length 0 := by
        rw [← hassoc2, heq]
        exact hzero
      rw [hassoc, polymod_tamper_ne hc (0 :: v1) v2 vx va.val
        (by
          intro y hy
          rcases List.mem_cons.mp hy with rfl | hy
          · decide
          · exact parseU5_B32 hv1 y hy)
        (parseU5_B32 hv2) (from_char_lt hvx) va.isLt
        (from_char_inj hvx hva (fun hxa => hax hxa.symm)) hzero']
  · -- t splits at the final '1' of p
    have ht' : t = p0 ++ '1' :: (d1 ++ x :: d2) := by
      rw [ht]
      simp
    have hnod : '1' ∉ d1 ++ x :: d2 := by
      intro hmem
      rcases List.mem_append.mp hmem with hmem | hmem
      · exact hd1 hmem
      · rcases List.mem_cons.mp hmem with heq | hmem
        · exact hx heq.symm
        · exact hd2 hmem
    rw [ht', from_hrpstring_split p0 _ hnod] at hparse
    cases hpd : parseU5 (d1 ++ x :: d2) with
    | error e => rw [hpd] at hparse; cases hparse
    | ok dv =>
      rw [hpd] at hparse
      have heq : (strBytes p0).map (· >>> 5) ++ [0] ++
          (strBytes p0).map (· &&& 0x1f) ++ dv = base ++ cs :=
        Except.ok.inj hparse
      obtain ⟨v1, w, hv1, hw, rfl⟩ := parseU5_append_inv hpd
      obtain ⟨vx, v2, hvx, hv2, rfl⟩ := parseU5_cons_inv hw
      have hnod' : '1' ∉ d1 ++ a :: d2 := by
        intro hmem
        rcases List.mem_append.mp hmem with hmem | hmem
        · exact hd1 hmem
        · rcases List.mem_cons.mp hmem with heq' | hmem
          · exact hane1 heq'.symm
          · exact hd2 hmem
      have hgoal : p0 ++ ['1'] ++ d1 ++ a :: d2 =
          p0 ++ '1' :: (d1 ++ a :: d2) := by simp
      rw [hgoal]
      have hparse' : from_hrpstring (p0 ++ '1' :: (d1 ++ a :: d2)) =
          .ok ((strBytes p0).map (· >>> 5) ++ [0] ++
            (strBytes p0).map (· &&& 0x1f) ++ (v1 ++ va.val :: v2)) := by
        rw [from_hrpstring_split p0 _ hnod',
          parseU5_append_ok hv1 (parseU5_cons_ok hva hv2)]
      rw [validate_eq hparse']
      have hassoc : (strBytes p0).map (· >>> 5) ++ [0] ++
          (strBytes p0).map (· &&& 0x1f) ++ (v1 ++ va.val :: v2) =
          ((strBytes p0).map (· >>> 5) ++ [0] ++
            (strBytes p0).map (· &&& 0x1f) ++ v1) ++ va.val :: v2 := by
        simp [List.append_assoc]
      have hassoc2 : (strBytes p0).map (· >>> 5) ++ [0] ++
          (strBytes p0).map (· &&& 0x1f) ++ (v1 ++ vx :: v2) =
          ((strBytes p0).map (· >>> 5) ++ [0] ++
            (strBytes p0).map (· &&& 0x1f) ++ v1) ++ vx :: v2 := by
        simp [List.append_assoc]
      have hzero' : c.polymod (((strBytes p0).map (· >>> 5) ++ [0] ++
          (strBytes p0).map (· &&& 0x1f) ++ v1) ++ vx :: v2) =
          List.replicate c.residue.length 0 := by
        rw [← hassoc2, heq]
        exact hzero
      have hEB : B32 ((strBytes p0).map (· >>> 5) ++ [0] ++
          (strBytes p0).map (· &&& 0x1f) ++ v1) := by
        have := B32_expand p0 (parseU5_B32 hv1)
        exact this
      rw [hassoc, polymod_tamper_ne hc _ v2 vx va.val hEB
        (parseU5_B32 hv2) (from_char_lt hvx) va.isLt
        (from_char_inj hvx hva (fun hxa => hax hxa.symm)) hzero']


/-! ### Claim C7: the concrete counterexample -/

/-- The pre-checksum string of the counterexample: 1022 zeros as the HRP,
then the separator. -/
def tamperSrc : List Char := List.replicate 1022 '0' ++ ['1']

/-- The checksummed counterexample string produced by `checksum`. -/
def tamperOrig : List Char := List.replicate 1022 '0' ++ '1' :: "sqqqqp".data

/-- `tamperOrig` with its first character (an HRP `'0'`) replaced by the
alphabet character `'r'`. -/
def tamperMod : List Char :=
  'r' :: (List.replicate 1021 '0' ++ '1' :: "sqqqqp".data)

theorem foldl_replicate_split (f : List Nat → Nat → List Nat) (m n v : Nat)
    (st : List Nat) :
    (List.replicate (m + n) v).foldl f st =
      (List.replicate n v).foldl f ((List.replicate m v).foldl f st) := by
  rw [List.replicate_add, List.foldl_append]

theorem flatten_replicate_singleton (n : Nat) (a : Nat) :
    (List.replicate n [a]).flatten = List.replicate n a := by
  induction n with
  | zero => rfl
  | succ n ih => simp [List.replicate_succ, ih]

theorem strBytes_replicate_zero (n : Nat) :
    strBytes (List.replicate n '0') = List.replicate n 48 := by
  rw [strBytes, List.map_replicate]
  exact flatten_replicate_singleton n 48

theorem c7A1 :
    (List.replicate 250 1).foldl bech32C.polyStep [0, 0, 0, 0, 0, 1] = [4, 16, 23, 21, 12, 8] := by
  decide

theorem c7A2 :
    (List.replicate 250 1).foldl bech32C.polyStep [4, 16, 23, 21, 12, 8] = [30, 25, 13, 21, 16, 31] := by
  decide

theorem c7A3 :
    (List.replicate 250 1).foldl bech32C.polyStep [30, 25, 13, 21, 16, 31] = [15, 30, 28, 6, 29, 12] := by
  decide

theorem c7A4 :
    (List.replicate 250 1).foldl bech32C.polyStep [15, 30, 28, 6, 29, 12] = [24, 30, 7, 18, 22, 17] := by
  decide

theorem c7A5 :
    (List.replicate 22 1).foldl bech32C.polyStep [24, 30, 7, 18, 22, 17] = [0, 0, 0, 0, 0, 0] := by
  decide

theorem c7L1 :
    (List.replicate 250 16).foldl bech32C.polyStep [0, 0, 0, 0, 0, 0] = [8, 12, 14, 21, 20, 1] := by
  decide

theorem c7L2 :
    (List.replicate 250 16).foldl bech32C.polyStep [8, 12, 14, 21, 20, 1] = [19, 23, 21, 18, 22, 1] := by
  decide

theorem c7L3 :
    (List.replicate 250 16).foldl bech32C.polyStep [19, 23, 21, 18, 22, 1] = [9, 5, 14, 21, 2, 22] := by
  decide

theorem c7L4 :
    (List.replicate 250 16).foldl bech32C.polyStep [9, 5, 14, 21, 2, 22] = [4, 24, 6, 9, 21, 14] := by
  decide

theorem c7L5 :
    (List.replicate 22 16).foldl bech32C.polyStep [4, 24, 6, 9, 21, 14] = [10, 13, 17, 5, 15, 13] := by
  decide

theorem c7B1 :
    (List.replicate 250 1).foldl bech32C.polyStep [0, 0, 0, 0, 1, 3] = [22, 1, 15, 26, 9, 14] := by
  decide

theorem c7B2 :
    (List.replicate 250 1).foldl bech32C.polyStep [22, 1, 15, 26, 9, 14] = [22, 21, 19, 10, 29, 10] := by
  decide

theorem c7B3 :
    (List.replicate 250 1).foldl bech32C.polyStep [22, 21, 19, 10, 29, 10] = [27, 21, 27, 30, 10, 29] := by
  decide

theorem c7B4 :
    (List.replicate 250 1).foldl bech32C.polyStep [27, 21, 27, 30, 10, 29] = [24, 4, 14, 11, 12, 27] := by
  decide

theorem c7B5 :
    (List.replicate 21 1).foldl bech32C.polyStep [24, 4, 14, 11, 12, 27] = [10, 6, 1, 2, 30, 23] := by
  decide

theorem c7M1 :
    (List.replicate 250 16).foldl bech32C.polyStep [0, 0, 0, 0, 0, 16] = [18, 26, 17, 24, 31, 13] := by
  decide

theorem c7M2 :
    (List.replicate 250 16).foldl bech32C.polyStep [18, 26, 17, 24, 31, 13] = [12, 7, 15, 24, 26, 28] := by
  decide

theorem c7M3 :
    (List.replicate 250 16).foldl bech32C.polyStep [12, 7, 15, 24, 26, 28] = [6, 12, 5, 27, 21, 31] := by
  decide

theorem c7M4 :
    (List.replicate 250 16).foldl bech32C.polyStep [6, 12, 5, 27, 21, 31] = [23, 12, 11, 19, 1, 10] := by
  decide

theorem c7M5 :
    (List.replicate 21 16).foldl bech32C.polyStep [23, 12, 11, 19, 1, 10] = [10, 13, 17, 5, 15, 13] := by
  decide

theorem c7A_total :
    (List.replicate 1022 1).foldl bech32C.polyStep [0, 0, 0, 0, 0, 1] = [0, 0, 0, 0, 0, 0] := by
  rw [show (1022 : Nat) = 250 + 772 by norm_num,
    foldl_replicate_split, c7A1]
  rw [show (772 : Nat) = 250 + 522 by norm_num,
    foldl_replicate_split, c7A2]
  rw [show (522 : Nat) = 250 + 272 by norm_num,
    foldl_replicate_split, c7A3]
  rw [show (272 : Nat) = 250 + 22 by norm_num,
    foldl_replicate_split, c7A4]
  exact c7A5

theorem c7L_total :
    (List.replicate 1022 16).foldl bech32C.polyStep [0, 0, 0, 0, 0, 0] = [10, 13, 17, 5, 15, 13] := by
  rw [show (1022 : Nat) = 250 + 772 by norm_num,
    foldl_replicate_split, c7L1]
  rw [show (772 : Nat) = 250 + 522 by norm_num,
    foldl_replicate_split, c7L2]
  rw [show (522 : Nat) = 250 + 272 by norm_num,
    foldl_replicate_split, c7L3]
  rw [show (272 : Nat) = 250 + 22 by norm_num,
    foldl_replicate_split, c7L4]
  exact c7L5

theorem c7B_total :
    (List.replicate 1021 1).foldl bech32C.polyStep [0, 0, 0, 0, 1, 3] = [10, 6, 1, 2, 30, 23] := by
  rw [show (1021 : Nat) = 250 + 771 by norm_num,
    foldl_replicate_split, c7B1]
  rw [show (771 : Nat) = 250 + 521 by norm_num,
    foldl_replicate_split, c7B2]
  rw [show (521 : Nat) = 250 + 271 by norm_num,
    foldl_replicate_split, c7B3]
  rw [show (271 : Nat) = 250 + 21 by norm_num,
    foldl_replicate_split, c7B4]
  exact c7B5

theorem c7M_total :
    (List.replicate 1021 16).foldl bech32C.polyStep [0, 0, 0, 0, 0, 16] = [10, 13, 17, 5, 15, 13] := by
  rw [show (1021 : Nat) = 250 + 771 by norm_num,
    foldl_replicate_split, c7M1]
  rw [show (771 : Nat) = 250 + 521 by norm_num,
    foldl_replicate_split, c7M2]
  rw [show (521 : Nat) = 250 + 271 by norm_num,
    foldl_replicate_split, c7M3]
  rw [show (271 : Nat) = 250 + 21 by norm_num,
    foldl_replicate_split, c7M4]
  exact c7M5

theorem strBytes_cons (c : Char) (l : List Char) :
    strBytes (c :: l) = utf8Bytes c ++ strBytes l := by
  simp [strBytes]

theorem c7_parse_src : from_hrpstring tamperSrc =
    .ok (List.replicate 1022 1 ++ [0] ++ List.replicate 1022 16 ++ []) := by
  have hsrc : tamperSrc = List.replicate 1022 '0' ++ '1' :: [] := rfl
  rw [hsrc, from_hrpstring_split _ _ (by simp)]
  rw [strBytes_replicate_zero, List.map_replicate, List.map_replicate]
  rw [show ((48 : Nat) >>> 5) = 1 from rfl,
    show ((48 : Nat) &&& 0x1f) = 16 from rfl]
  rfl

theorem c7_checksum_src :
    bech32C.checksum tamperSrc = some tamperOrig := by
  have hpoly : bech32C.polymod
      ((List.replicate 1022 1 ++ [0] ++ List.replicate 1022 16 ++ []) ++
        List.replicate bech32C.residue.length 0) = [16, 0, 0, 0, 0, 1] := by
    rw [Checksum.polymod, List.foldl_append, List.foldl_append,
      List.foldl_append, List.foldl_append]
    rw [show bech32C.initState = [0, 0, 0, 0, 0, 1] from rfl]
    rw [c7A_total]
    rw [show (([0] : List Nat).foldl bech32C.polyStep [0, 0, 0, 0, 0, 0]) =
      [0, 0, 0, 0, 0, 0] from by decide]
    rw [c7L_total, List.foldl_nil]
    rw [show ((List.replicate bech32C.residue.length (0 : Nat)).foldl
      bech32C.polyStep [10, 13, 17, 5, 15, 13]) = [16, 0, 0, 0, 0, 0] from by
        decide]
    decide
  rw [checksum_eq c7_parse_src, hpoly]
  have hmap : ([16, 0, 0, 0, 0, 1].map charsetChar) = "sqqqqp".data := by decide
  rw [hmap]
  have hsrc : tamperSrc = List.replicate 1022 '0' ++ ['1'] := rfl
  rw [hsrc, tamperOrig, List.append_assoc]
  rfl

theorem c7_parse_mod : from_hrpstring tamperMod =
    .ok ((3 :: List.replicate 1021 1) ++ [0] ++
      (18 :: List.replicate 1021 16) ++ [16, 0, 0, 0, 0, 1]) := by
  have hmod : tamperMod =
      ('r' :: List.replicate 1021 '0') ++ '1' :: "sqqqqp".data := rfl
  rw [hmod, from_hrpstring_split _ _ (by decide)]
  rw [strBytes_cons, strBytes_replicate_zero,
    show utf8Bytes 'r' = [114] from rfl, List.singleton_append,
    List.map_cons, List.map_cons, List.map_replicate, List.map_replicate]
  rw [show ((114 : Nat) >>> 5) = 3 from rfl,
    show ((48 : Nat) >>> 5) = 1 from rfl,
    show ((114 : Nat) &&& 0x1f) = 18 from rfl,
    show ((48 : Nat) &&& 0x1f) = 16 from rfl]
  rw [show parseU5 "sqqqqp".data = .ok [16, 0, 0, 0, 0, 1] from by decide]

theorem c7_validate_mod :
    bech32C.validate_checksum tamperMod = some true := by
  have hpoly : bech32C.polymod ((3 :: List.replicate 1021 1) ++ [0] ++
      (18 :: List.replicate 1021 16) ++ [16, 0, 0, 0, 0, 1]) =
      [0, 0, 0, 0, 0, 0] := by
    rw [show (3 :: List.replicate 1021 1 : List Nat) =
      [3] ++ List.replicate 1021 1 from rfl,
      show (18 :: List.replicate 1021 16 : List Nat) =
        [18] ++ List.replicate 1021 16 from rfl]
    rw [Checksum.polymod, List.foldl_append, List.foldl_append,
      List.foldl_append, List.foldl_append, List.foldl_append]
    rw [show (([3] : List Nat).foldl bech32C.polyStep bech32C.initState) =
      [0, 0, 0, 0, 1, 3] from by decide]
    rw [c7B_total]
    rw [show (([0] : List Nat).foldl bech32C.polyStep [10, 6, 1, 2, 30, 23]) =
      [11, 16, 7, 17, 26, 16] from by decide]
    rw [show (([18] : List Nat).foldl bech32C.polyStep
      [11, 16, 7, 17, 26, 16]) = [0, 0, 0, 0, 0, 16] from by decide]
    rw [c7M_total]
    rw [show (([16, 0, 0, 0, 0, 1] : List Nat).foldl bech32C.polyStep
      [10, 13, 17, 5, 15, 13]) = [0, 0, 0, 0, 0, 1] from by decide]
    decide
  rw [validate_eq c7_parse_mod, hpoly]
  decide

/-- C7 counterexample: `tamperOrig` is produced by `checksum` on
`tamperSrc` (a 1022-character HRP of zeros plus the separator);
`tamperMod` replaces its first character — the HRP character `'0'` at
index 0 — by the different alphabet character `'r'`, and
`validate_checksum` still returns true on the result.  A single-character
substitution can therefore go undetected, refuting the claim as stated
(the generator's x has order 1023 in GF(32)[x]/modulus, and the two
changed expansion positions sit exactly 1023 apart). -/
theorem C7_counterexample :
    bech32C.checksum tamperSrc = some tamperOrig ∧
    tamperMod = tamperOrig.set 0 'r' ∧
    tamperOrig.getD 0 'q' = '0' ∧ 'r' ∈ CHARSET.data ∧ ('r' : Char) ≠ '0' ∧
    bech32C.validate_checksum tamperMod = some true := by
  refine ⟨c7_checksum_src, ?_, ?_, by decide, by decide, c7_validate_mod⟩
  · rw [tamperOrig, show (1022 : Nat) = 1021 + 1 from rfl,
      show (1021 + 1 : Nat) = 1 + 1021 from by norm_num, List.replicate_add]
    rfl
  · rw [tamperOrig, show (1022 : Nat) = 1 + 1021 from by norm_num,
      List.replicate_add]
    rfl


theorem C7_tamper_witness :
    bech32C.checksum "ac1qqq".data = some "ac1qqqyujaj3".data ∧
    bech32C.validate_checksum
      ("ac1".data ++ "qqqyujaj".data ++ 'p' :: []) = some false :=
  ⟨by decide,
    C7_tamper_detected "bech32" bech32C get_checksums_bech32 "ac1qqq".data
      "ac1qqqyujaj3".data (by decide) "ac1".data "qqqyujaj".data [] '3' 'p'
      (by decide) (Or.inr ⟨"ac".data, by decide⟩) (by decide) (by decide)
      (by decide) (by decide) (by decide)⟩

end Checksum32
